import Mathlib

/-!
Shallow embedding of the blob-level encrypt/decode codec and the name-group
resolver of the `codn` cryptographic storage layer
(`src/codn/cryptodir/namegroup/encdec/_25_encdec_part.py`,
`src/codn/cryptodir/namegroup/blob_navigator.py`,
`src/codn/c_namegroups/_fakes.py`).

Bytes are modelled as `Nat` values (`< 256` for genuine byte strings), byte
strings as `List Nat`, streams as a list plus a position.  The keyed hash
behind imprints and the ChaCha20 keystream are abstract function parameters
(`H`, `ks`); randomness consumed by the code (imprint nonces, cipher nonce,
intro padding, tail padding, tail-size draw) is passed in explicitly as an
`EncRand` record of draws and byte oracles.  Python exceptions are modelled
by `Except Err`.
-/

namespace Ksf

/-- Python exception kinds raised by the embedded code
(`InsufficientData`, `ChecksumMismatch`, `GroupImprintMismatch`,
`ItemImprintMismatch`, `ValueError`, `AssertionError`,
`UnicodeDecodeError`, `RuntimeError`, and the `OverflowError` of the
fixed-width big-endian byte encoders). -/
inductive Err where
  | insufficientData
  | checksumMismatch
  | groupImprintMismatch
  | itemImprintMismatch
  | valueError
  | assertionError
  | unicodeDecodeError
  | runtimeError
  | overflowError
deriving DecidableEq

instance {ε α : Type} [DecidableEq ε] [DecidableEq α] :
    DecidableEq (Except ε α) := fun x y =>
  match x, y with
  | .ok a, .ok b =>
    if h : a = b then .isTrue (h ▸ rfl)
    else .isFalse (fun he => h (Except.ok.inj he))
  | .error a, .error b =>
    if h : a = b then .isTrue (h ▸ rfl)
    else .isFalse (fun he => h (Except.error.inj he))
  | .ok _, .error _ => .isFalse Except.noConfusion
  | .error _, .ok _ => .isFalse Except.noConfusion

/-- Big-endian encoding of `n` into `w` bytes (most significant first).
Modelled from the spec: fixed-width big-endian integer encoders of the
byte-codec module `_20_byte_funcs` (not under `src/`). -/
def natToBytesBE : Nat → Nat → List Nat
  | 0, _ => []
  | w + 1, n => natToBytesBE w (n / 256) ++ [n % 256]

/-- Big-endian decoding of a byte string into a `Nat`.
Modelled from the spec: fixed-width big-endian integer decoders of the
byte-codec module `_20_byte_funcs` (not under `src/`). -/
def bytesToNatBE (l : List Nat) : Nat :=
  l.foldl (fun a b => a * 256 + b) 0

/-- Modelled from the spec: `uint8_to_bytes` of `_20_byte_funcs`
(not under `src/`); fails on out-of-range input like the Python
fixed-width encoder. -/
def uint8_to_bytes (n : Nat) : Except Err (List Nat) :=
  if n < 256 then .ok [n] else .error .overflowError

/-- Modelled from the spec: `uint24_to_bytes` of `_20_byte_funcs`
(not under `src/`). -/
def uint24_to_bytes (n : Nat) : Except Err (List Nat) :=
  if n < 256 ^ 3 then .ok (natToBytesBE 3 n) else .error .overflowError

/-- Modelled from the spec: `uint32_to_bytes` of `_20_byte_funcs`
(not under `src/`). -/
def uint32_to_bytes (n : Nat) : Except Err (List Nat) :=
  if n < 256 ^ 4 then .ok (natToBytesBE 4 n) else .error .overflowError

/-- Modelled from the spec: `int64_to_bytes` of `_20_byte_funcs`
(not under `src/`): 8-byte big-endian two's-complement encoding. -/
def int64_to_bytes (v : Int) : Except Err (List Nat) :=
  if -(2 ^ 63) ≤ v ∧ v < 2 ^ 63 then
    .ok (natToBytesBE 8 (v % (2 ^ 64 : Int)).toNat)
  else .error .overflowError

/-- Modelled from the spec: `bytes_to_uint8` of `_20_byte_funcs`. -/
def bytes_to_uint8 (l : List Nat) : Nat := bytesToNatBE l

/-- Modelled from the spec: `bytes_to_uint24` of `_20_byte_funcs`. -/
def bytes_to_uint24 (l : List Nat) : Nat := bytesToNatBE l

/-- Modelled from the spec: `bytes_to_uint32` of `_20_byte_funcs`. -/
def bytes_to_uint32 (l : List Nat) : Nat := bytesToNatBE l

/-- Modelled from the spec: `bytes_to_int64` of `_20_byte_funcs`:
8-byte big-endian two's-complement decoding. -/
def bytes_to_int64 (l : List Nat) : Int :=
  let n := bytesToNatBE l
  if n < 2 ^ 63 then (n : Int) else (n : Int) - 2 ^ 64

/-- One bit-step of the reflected CRC-32 (IEEE 802.3) computation,
polynomial `0xEDB88320` (`zlib.crc32`). -/
def crc32Step (c : Nat) : Nat :=
  if c % 2 = 1 then (c / 2) ^^^ 0xEDB88320 else c / 2

/-- Folding one input byte into the CRC-32 state. -/
def crc32Byte (c b : Nat) : Nat := (crc32Step^[8]) (c ^^^ b % 256)

/-- `zlib.crc32` over a byte string: IEEE CRC-32 with initial value and
final xor `0xFFFFFFFF`. -/
def crc32 (data : List Nat) : Nat :=
  (data.foldl crc32Byte 0xFFFFFFFF) ^^^ 0xFFFFFFFF

/-- `Imprint.FULL_LEN`: 24-byte nonce plus 32-byte digest. -/
def imprintFullLen : Nat := 56

/-- Modelled from the spec: the imprint emitted for key `k` with random
nonce `nonce` is `nonce ∥ H(k ∥ nonce)` where `H` is the keyed hash
(imprint module not under `src/`). -/
def imprintBytes (H : List Nat → List Nat) (k nonce : List Nat) : List Nat :=
  nonce ++ H (k ++ nonce)

/-- Modelled from the spec: `pk_matches_imprint_bytes` splits the 56 bytes
into nonce and digest, recomputes the digest from the key and compares. -/
def pk_matches_imprint_bytes (H : List Nat → List Nat) (k imp : List Nat) : Bool :=
  decide (imp.drop 24 = H (k ++ imp.take 24))

/-- Modelled from the spec: `read_or_fail` returns exactly `n` bytes of the
stream starting at `pos`, or fails (`InsufficientData`) when fewer are
available. -/
def readOrFail (blob : List Nat) (pos n : Nat) : Option (List Nat) :=
  if pos + n ≤ blob.length then some ((blob.drop pos).take n) else none

/-- A byte supply drawn from an oracle: `n` bytes `f 0 % 256, …`
(models `get_random_bytes`). -/
def randBytes (f : Nat → Nat) (n : Nat) : List Nat :=
  (List.range n).map (fun i => f i % 256)

/-- XOR of a byte string with the keystream `m` starting at keystream
position `i` (ChaCha20 stream encryption/decryption: `cipher.encrypt` and
`cipher.decrypt` both xor with consecutive keystream bytes). -/
def xorStream (m : Nat → Nat) : Nat → List Nat → List Nat
  | _, [] => []
  | i, b :: bs => (b ^^^ m i % 256) :: xorStream m (i + 1) bs

/-- The decrypted header (`Header` named tuple of `_25_encdec_part.py`). -/
structure Header where
  format_version : Nat
  data_version : Int
  data_size : Nat
  parts_len : Nat
  part_idx : Nat
  part_size : Nat
deriving DecidableEq

/-- The mutable state of a `DecryptedIO` object: the cached tier results
(`_belongs_to_namegroup`, `_contains_data`, `_header`, `_data_read`), the
stream position of `_source`, and the cipher created by `__read_header`
(`cfg`): its nonce and the number of keystream bytes consumed. -/
structure DioSt where
  belongsC : Option Bool
  containsC : Option Bool
  headerC : Option Header
  dataRead : Bool
  sp : Nat
  cfgNonce : Option (List Nat)
  kp : Nat
deriving DecidableEq

/-- Fresh decoder state (`DecryptedIO.__init__`). -/
def DioSt.start : DioSt := ⟨none, none, none, false, 0, none, 0⟩

/-- The `belongs_to_namegroup` property: on first access seek to 0, read the
56 bytes of imprint A and verify them against the key, caching the result;
an `InsufficientData` is caught and cached as `False`. -/
def belongsM (H : List Nat → List Nat) (k blob : List Nat) (s : DioSt) :
    Bool × DioSt :=
  match s.belongsC with
  | some b => (b, s)
  | none =>
    match readOrFail blob 0 imprintFullLen with
    | some imp =>
      let b := pk_matches_imprint_bytes H k imp
      (b, { s with belongsC := some b, sp := imprintFullLen })
    | none => (false, { s with belongsC := some false, sp := blob.length })

/-- The `contains_data` property: requires `belongs_to_namegroup`; on first
access reads the next 56 bytes (imprint B) and verifies them, caching the
result; an `InsufficientData` is caught and cached as `False`. -/
def containsM (H : List Nat → List Nat) (k blob : List Nat) (s : DioSt) :
    Bool × DioSt :=
  let bs := belongsM H k blob s
  if !bs.1 then (false, bs.2)
  else
    match bs.2.containsC with
    | some c => (c, bs.2)
    | none =>
      match readOrFail blob bs.2.sp imprintFullLen with
      | some imp =>
        let c := pk_matches_imprint_bytes H k imp
        (c, { bs.2 with containsC := some c, sp := bs.2.sp + imprintFullLen })
      | none => (false, { bs.2 with containsC := some false, sp := blob.length })

/-- Read cursor of `__read_and_decrypt`: stream position and keystream
position of the cipher. -/
structure RdSt where
  sp : Nat
  kp : Nat
deriving DecidableEq

/-- `DecryptedIO.__read_and_decrypt`: read `n` bytes (consuming the stream
to its end and raising `InsufficientData` when fewer are available) and xor
them with the keystream. -/
def readAndDecryptM (m : Nat → Nat) (blob : List Nat) (r : RdSt) (n : Nat) :
    Except (Err × RdSt) (List Nat × RdSt) :=
  if r.sp + n ≤ blob.length then
    .ok (xorStream m r.kp ((blob.drop r.sp).take n), ⟨r.sp + n, r.kp + n⟩)
  else .error (.insufficientData, { r with sp := blob.length })

/-- `DecryptedIO.__read_header`, starting at stream position `sp0`: read the
8-byte cipher nonce, create the cipher, decrypt and skip the intro padding
(`first_byte_to_len b = b % 64`), decrypt and parse the 19-byte header,
check `FORMAT_ID = "LS"` and `FORMAT_VER = 1` and the header CRC-32.
Returns the header, the cipher nonce and the final cursor; on failure the
error together with the cursor reached. -/
def readHeaderM (ks : List Nat → List Nat → Nat → Nat) (k blob : List Nat)
    (sp0 : Nat) : Except (Err × RdSt) (Header × List Nat × RdSt) :=
  match readOrFail blob sp0 8 with
  | none => .error (.insufficientData, ⟨blob.length, 0⟩)
  | some nonce =>
    let m := ks k nonce
    do
    let (ipf, r1) ← readAndDecryptM m blob ⟨sp0 + 8, 0⟩ 1
    let ipLen := ipf.headI % 64
    let (_, r2) ← readAndDecryptM m blob r1 ipLen
    let (format_id, r3) ← readAndDecryptM m blob r2 2
    if format_id.any (fun b => 128 ≤ b) then
      throw (.unicodeDecodeError, r3)
    else if format_id ≠ [76, 83] then
      throw (.assertionError, r3)
    else do
    let (fvb, r4) ← readAndDecryptM m blob r3 1
    if fvb ≠ [1] then throw (.assertionError, r4)
    else do
    let (dvb, r5) ← readAndDecryptM m blob r4 8
    let (fsb, r6) ← readAndDecryptM m blob r5 4
    let (plb, r7) ← readAndDecryptM m blob r6 1
    let (pib, r8) ← readAndDecryptM m blob r7 1
    let (psb, r9) ← readAndDecryptM m blob r8 3
    let (hcb, r10) ← readAndDecryptM m blob r9 4
    let headerBytes := format_id ++ fvb ++ dvb ++ fsb ++ plb ++ pib ++ psb
    if crc32 headerBytes ≠ bytesToNatBE hcb then
      throw (.checksumMismatch, r10)
    else
      pure (⟨fvb.headI, bytes_to_int64 dvb, bytes_to_uint32 fsb,
             bytes_to_uint8 plb + 1, bytes_to_uint8 pib, bytes_to_uint24 psb⟩,
            nonce, r10)

/-- The `header` property: raise `GroupImprintMismatch` unless
`belongs_to_namegroup`, raise `ItemImprintMismatch` unless `contains_data`,
then parse (and cache) the header via `__read_header`. -/
def headerM (H : List Nat → List Nat) (ks : List Nat → List Nat → Nat → Nat)
    (k blob : List Nat) (s : DioSt) : Except Err Header × DioSt :=
  let bs := belongsM H k blob s
  if !bs.1 then (.error .groupImprintMismatch, bs.2)
  else
    let cs := containsM H k blob bs.2
    if !cs.1 then (.error .itemImprintMismatch, cs.2)
    else
      match cs.2.headerC with
      | some h => (.ok h, cs.2)
      | none =>
        match readHeaderM ks k blob cs.2.sp with
        | .ok (h, nonce, r) =>
          (.ok h, { cs.2 with headerC := some h, sp := r.sp, kp := r.kp,
                              cfgNonce := some nonce })
        | .error (e, r) => (.error e, { cs.2 with sp := r.sp, kp := r.kp })

/-- `DecryptedIO.read_data`: raise `RuntimeError` on a second call, require
`header`, decrypt `PART_SIZE` body bytes and the 4-byte body CRC with the
cipher left by `__read_header`, verify the CRC and mark the stream
consumed. -/
def readDataM (H : List Nat → List Nat) (ks : List Nat → List Nat → Nat → Nat)
    (k blob : List Nat) (s : DioSt) : Except Err (List Nat) × DioSt :=
  if s.dataRead then (.error .runtimeError, s)
  else
    match headerM H ks k blob s with
    | (.error e, s1) => (.error e, s1)
    | (.ok h, s1) =>
      let m := ks k (s1.cfgNonce.getD [])
      match readAndDecryptM m blob ⟨s1.sp, s1.kp⟩ h.part_size with
      | .error (e, r) => (.error e, { s1 with sp := r.sp, kp := r.kp })
      | .ok (body, r1) =>
        match readAndDecryptM m blob r1 4 with
        | .error (e, r) => (.error e, { s1 with sp := r.sp, kp := r.kp })
        | .ok (bcb, r2) =>
          if crc32 body ≠ bytes_to_uint32 bcb then
            (.error .checksumMismatch, { s1 with sp := r2.sp, kp := r2.kp })
          else
            (.ok body, { s1 with sp := r2.sp, kp := r2.kp, dataRead := true })

/-- `belongs_to_namegroup` of a fresh decoder. -/
def belongs_to_namegroup (H : List Nat → List Nat) (k blob : List Nat) : Bool :=
  (belongsM H k blob .start).1

/-- `contains_data` of a fresh decoder. -/
def contains_data (H : List Nat → List Nat) (k blob : List Nat) : Bool :=
  (containsM H k blob .start).1

/-- The `header` property of a fresh decoder. -/
def headerOf (H : List Nat → List Nat) (ks : List Nat → List Nat → Nat → Nat)
    (k blob : List Nat) : Except Err Header :=
  (headerM H ks k blob .start).1

/-- `read_data` of a fresh decoder. -/
def read_data (H : List Nat → List Nat) (ks : List Nat → List Nat → Nat → Nat)
    (k blob : List Nat) : Except Err (List Nat) :=
  (readDataM H ks k blob .start).1

/-- Constructor arguments of `Encrypt` (Python ints; `part_size` optional). -/
structure EncArgs where
  data_version : Int
  part_idx : Int
  parts_len : Int
  part_size : Option Int
deriving DecidableEq

/-- `Encrypt.__init__` argument validation, in source order: `part_idx`
in `0..0xFF`, `parts_len` in `1..0x100`, a present `part_size` in
`0..MAX_PART_CONTENT_SIZE`, the (redundant) re-checks, and the requirement
that an omitted `part_size` implies `part_idx = 0` and `parts_len = 1`. -/
def encryptInit (MPCS : Nat) (a : EncArgs) : Except Err Unit :=
  if ¬ (0 ≤ a.part_idx ∧ a.part_idx ≤ 255) then .error .valueError
  else if ¬ (1 ≤ a.parts_len ∧ a.parts_len ≤ 256) then .error .valueError
  else if (match a.part_size with
           | some ps => decide (¬ (0 ≤ ps ∧ ps ≤ (MPCS : Int)))
           | none => false) then .error .valueError
  else if ¬ (0 ≤ a.part_idx ∧ a.part_idx ≤ 255) then .error .valueError
  else if ¬ (0 ≤ a.parts_len ∧ a.parts_len ≤ 0xFFFFFF) then .error .valueError
  else if a.part_size = none ∧ ¬ (a.part_idx = 0 ∧ a.parts_len = 1) then
    .error .valueError
  else .ok ()

/-- Encoding `Int` as one byte, failing out of range (Python `uint8_to_bytes`
applied to an int). -/
def intToUint8 (v : Int) : Except Err (List Nat) :=
  if 0 ≤ v ∧ v < 256 then .ok [v.toNat] else .error .overflowError

/-- Encoding `Int` as three bytes, failing out of range. -/
def intToUint24 (v : Int) : Except Err (List Nat) :=
  if 0 ≤ v ∧ v < 256 ^ 3 then .ok (natToBytesBE 3 v.toNat)
  else .error .overflowError

/-- The random draws consumed by one `Encrypt.io_to_io` call: the two
imprint nonces, the ChaCha20 nonce, the first intro-padding byte, the
oracle for the remaining intro-padding bytes, the tail-size draw
`random.randint(current_size, MAX_BLOB_SIZE)` and the oracle for the tail
padding bytes. -/
structure EncRand where
  nonceA : List Nat
  nonceB : List Nat
  cipherNonce : List Nat
  introFirst : Nat
  introOracle : Nat → Nat
  targetSize : Nat
  tailOracle : Nat → Nat

/-- Well-formedness of the random draws: nonce lengths as produced by the
imprint module and ChaCha20, and distinct imprint nonces (the spec's
imprint-freshness invariant). -/
def EncRand.WF (r : EncRand) : Prop :=
  r.nonceA.length = 24 ∧ r.nonceB.length = 24 ∧ r.cipherNonce.length = 8 ∧
    r.nonceA ≠ r.nonceB

/-- The intro padding written by `IntroPadding(64).gen_bytes`: the first
byte followed by `first % 64` random bytes.  Modelled from the spec
(`_10_padding` is not under `src/`): one byte `b`, padding length
`b mod 64`, that many random bytes follow. -/
def introPadBytes (r : EncRand) : List Nat :=
  (r.introFirst % 256) :: randBytes r.introOracle (r.introFirst % 64)

/-- `Encrypt.io_to_io` translated step by step: build the header bytes,
read exactly `part_size` bytes of body from the source stream `(data, pos)`
(`full_size` is the total stream size), write the two imprints, the cipher
nonce, the encrypted intro padding / header / header CRC / body / body CRC,
then tail padding up to the drawn `target_size ≤ MAX_BLOB_SIZE (MBS)`.
Python asserts are modelled as `AssertionError`. -/
def encodeBlob (H : List Nat → List Nat) (ks : List Nat → List Nat → Nat → Nat)
    (MBS : Nat) (k : List Nat) (a : EncArgs) (r : EncRand)
    (data : List Nat) (pos : Nat) : Except Err (List Nat) :=
  if imprintBytes H k r.nonceA = imprintBytes H k r.nonceB then
    .error .assertionError
  else
    (int64_to_bytes a.data_version).bind fun item_version_bytes =>
    (uint32_to_bytes data.length).bind fun full_size_bytes =>
    if a.part_size = none ∧ ¬ (a.parts_len = 1 ∧ a.part_idx = 0) then
      .error .assertionError
    else
      let psEff : Int := a.part_size.getD (data.length : Int)
      (intToUint8 (a.parts_len - 1)).bind fun parts_len_bytes =>
      (intToUint8 a.part_idx).bind fun part_idx_bytes =>
      (intToUint24 psEff).bind fun part_size_bytes =>
      let header_bytes := [76, 83] ++ [1] ++ item_version_bytes ++
        full_size_bytes ++ parts_len_bytes ++ part_idx_bytes ++ part_size_bytes
      (uint32_to_bytes (crc32 header_bytes)).bind fun header_crc_bytes =>
      match readOrFail data pos psEff.toNat with
      | none => .error .insufficientData
      | some body =>
        (uint32_to_bytes (crc32 body)).bind fun body_crc_bytes =>
        let plain := introPadBytes r ++ header_bytes ++ header_crc_bytes ++
          body ++ body_crc_bytes
        let pre := imprintBytes H k r.nonceA ++ imprintBytes H k r.nonceB ++
          r.cipherNonce
        let current_size := pre.length + plain.length
        if MBS < current_size then .error .assertionError
        else
          let blob := pre ++ xorStream (ks k r.cipherNonce) 0 plain ++
            randBytes r.tailOracle (r.targetSize - current_size)
          if MBS < blob.length then .error .assertionError
          else .ok blob

/-- `create_fake_bytes`: one imprint for the key followed by
`CLUSTER_SIZE - 56` random bytes. -/
def create_fake_bytes (H : List Nat → List Nat) (CLUSTER : Nat)
    (k nonce : List Nat) (tailOracle : Nat → Nat) : List Nat :=
  imprintBytes H k nonce ++ randBytes tailOracle (CLUSTER - imprintFullLen)

/-- First loop of `NameGroup.__init__`: one fresh decoder per blob, keep
those whose `belongs_to_namegroup` holds, together with their decoder
state. -/
def ngItems1 (H : List Nat → List Nat) (k : List Nat)
    (blobs : List (List Nat)) : List (Nat × DioSt) :=
  (List.range blobs.length).filterMap (fun i =>
    let bs := belongsM H k (blobs.getD i []) .start
    if bs.1 then some (i, bs.2) else none)

/-- Second loop of `NameGroup.__init__`: evaluate `contains_data` on each
kept decoder; `is_fake` is its negation. -/
def ngItems2 (H : List Nat → List Nat) (k : List Nat)
    (blobs : List (List Nat)) : List (Nat × DioSt × Bool) :=
  (ngItems1 H k blobs).map (fun x =>
    let cs := containsM H k (blobs.getD x.1 []) x.2
    (x.1, cs.2, cs.1))

/-- Evaluating `header` on every content decoder (the construction of
`all_content_versions` in `NameGroup.__init__`); the first failure
propagates out of the constructor. -/
def ngCollect (H : List Nat → List Nat) (ks : List Nat → List Nat → Nat → Nat)
    (k : List Nat) (blobs : List (List Nat)) :
    List (Nat × DioSt × Bool) → Except Err (List (Nat × Header))
  | [] => .ok []
  | x :: xs =>
    match headerM H ks k (blobs.getD x.1 []) x.2.1 with
    | (.error e, _) => .error e
    | (.ok h, _) =>
      match ngCollect H ks k blobs xs with
      | .error e => .error e
      | .ok rest => .ok ((x.1, h) :: rest)

/-- `sorted(…, reverse=True)`: sorting into decreasing order. -/
def sortDesc (l : List Int) : List Int :=
  l.insertionSort (fun a b => b ≤ a)

/-- The version-selection loop of `NameGroup.__init__`: walk the distinct
`data_version` values in decreasing order and return the first one whose
group of content files has as many members as the `parts_len` of its first
member.  (`part_idx` values are not examined.) -/
def pickFreshVer (content : List (Nat × Header)) : List Int → Option Int
  | [] => none
  | v :: rest =>
    let g := content.filter (fun x => x.2.data_version = v)
    match g.head? with
    | none => pickFreshVer content rest
    | some first =>
      if first.2.parts_len = g.length then some v
      else pickFreshVer content rest

/-- The test applied by the version-selection loop to one `data_version`
value: the group of content files carrying it is non-empty and its first
member's `parts_len` equals the group size
(`files_by_ver[0].dio.header.parts_len == len(files_by_ver)`). -/
def sizeMatch (content : List (Nat × Header)) (v : Int) : Bool :=
  match (content.filter (fun x => x.2.data_version = v)).head? with
  | none => false
  | some first =>
    decide (first.2.parts_len =
      (content.filter (fun x => x.2.data_version = v)).length)

/-- The distinct `data_version` values of the content files, in decreasing
order (`sorted(set(...), reverse=True)`). -/
def ngVersions (content : List (Nat × Header)) : List Int :=
  sortDesc (content.map (fun x => x.2.data_version)).dedup

/-- Result of the resolver: indices of blobs that belong to the name group,
indices of the fakes among them, the content blobs with their parsed
headers, and the indices marked `is_fresh_data`. -/
structure NgResult where
  itemIdxs : List Nat
  fakeIdxs : List Nat
  contentItems : List (Nat × Header)
  freshIdxs : List Nat
deriving DecidableEq

/-- `NameGroup.__init__` over an indexed list of blobs: classify each blob
(foreign blobs dropped, fakes flagged), parse the header of every content
blob (errors propagate), and mark as fresh the group selected by
`pickFreshVer`. -/
def ngroupRun (H : List Nat → List Nat) (ks : List Nat → List Nat → Nat → Nat)
    (k : List Nat) (blobs : List (List Nat)) : Except Err NgResult :=
  let items2 := ngItems2 H k blobs
  match ngCollect H ks k blobs (items2.filter (fun x => x.2.2)) with
  | .error e => .error e
  | .ok content =>
    let fresh :=
      match pickFreshVer content (ngVersions content) with
      | some v => (content.filter (fun x => x.2.data_version = v)).map (·.1)
      | none => []
    .ok ⟨(ngItems1 H k blobs).map (·.1),
         (items2.filter (fun x => !x.2.2)).map (·.1),
         content, fresh⟩

/-- The header byte string built by `Encrypt.io_to_io` (canonical form used
to state the encoder-output decomposition): format id `"LS"`, format
version 1, `ITEM_VER`, `FULL_SIZE`, `PARTS_LEN − 1`, `PART_IDX`,
`PART_SIZE`. -/
def encHeaderBytes (dv : Int) (fs pl pi ps : Nat) : List Nat :=
  [76, 83] ++ [1] ++ natToBytesBE 8 ((dv % (2 ^ 64 : Int)).toNat) ++
    natToBytesBE 4 fs ++ [pl - 1] ++ [pi] ++ natToBytesBE 3 ps

/-- The plaintext of the encrypted region written by `Encrypt.io_to_io`:
intro padding, header, header CRC, body, body CRC. -/
def encPlain (r : EncRand) (dv : Int) (fs pl pi ps : Nat) (body : List Nat) :
    List Nat :=
  introPadBytes r ++ encHeaderBytes dv fs pl pi ps ++
    natToBytesBE 4 (crc32 (encHeaderBytes dv fs pl pi ps)) ++ body ++
    natToBytesBE 4 (crc32 body)

/-- The cleartext prefix written by `Encrypt.io_to_io`: imprint A,
imprint B, cipher nonce. -/
def encPre (H : List Nat → List Nat) (k : List Nat) (r : EncRand) : List Nat :=
  imprintBytes H k r.nonceA ++ imprintBytes H k r.nonceB ++ r.cipherNonce

/-- The complete blob written by `Encrypt.io_to_io` in canonical form:
cleartext prefix, encrypted region, tail padding up to the drawn
`target_size`. -/
def encBlobBytes (H : List Nat → List Nat)
    (ks : List Nat → List Nat → Nat → Nat) (k : List Nat) (r : EncRand)
    (dv : Int) (fs pl pi ps : Nat) (body : List Nat) : List Nat :=
  encPre H k r ++ xorStream (ks k r.cipherNonce) 0 (encPlain r dv fs pl pi ps body) ++
    randBytes r.tailOracle
      (r.targetSize -
        ((encPre H k r).length + (encPlain r dv fs pl pi ps body).length))

/-- The fresh-group selection as claim C2 words it (for comparison with the
code): among the distinct versions in decreasing order, the first whose
group size equals the `parts_len` of all its members and whose `part_idx`
values form exactly the set `{0, …, parts_len − 1}`. -/
def claimFreshVer (content : List (Nat × Header)) : Option Int :=
  (ngVersions content).find? (fun v =>
    let g := content.filter (fun x => x.2.data_version = v)
    g.all (fun x => x.2.parts_len = g.length) &&
      decide ((g.map (fun x => x.2.part_idx)).toFinset = Finset.range g.length))

/-- The fresh set as claim C2 words it, at the blob level: the real-data
blobs (both imprints verify and the header parses) of the selected
version. -/
def claimFresh (H : List Nat → List Nat) (ks : List Nat → List Nat → Nat → Nat)
    (k : List Nat) (blobs : List (List Nat)) : List Nat :=
  let content := (List.range blobs.length).filterMap (fun i =>
    let blob := blobs.getD i []
    if belongs_to_namegroup H k blob ∧ contains_data H k blob then
      match headerOf H ks k blob with
      | .ok h => some (i, h)
      | .error _ => none
    else none)
  match claimFreshVer content with
  | some v => (content.filter (fun x => x.2.data_version = v)).map (·.1)
  | none => []

/-- A concrete keyed hash used to instantiate the abstract `H` in witnesses
and counterexamples: a 32-byte digest depending on the hashed bytes. -/
def H0 : List Nat → List Nat :=
  fun l => List.replicate 32 (l.foldl (fun a b => (a + b) % 256) 7)

/-- A concrete keystream used to instantiate the abstract ChaCha20 `ks` in
witnesses and counterexamples (the all-zero keystream). -/
def ks0 : List Nat → List Nat → Nat → Nat := fun _ _ _ => 0

/-- A concrete 32-byte codename key. -/
def k0 : List Nat := List.replicate 32 3

/-- A concrete 24-byte imprint nonce. -/
def nA : List Nat := List.replicate 24 0

/-- A second, distinct 24-byte imprint nonce. -/
def nB : List Nat := List.replicate 23 0 ++ [1]

/-- Concrete random draws for an encoding whose drawn `target_size` equals
the encrypted-region end (150 bytes for a one-byte body). -/
def rand1 : EncRand := ⟨nA, nB, List.replicate 8 0, 0, fun _ => 0, 150, fun _ => 0⟩

/-- Concrete random draws identical to `rand1` except that the drawn
`target_size` is 200. -/
def rand2 : EncRand := ⟨nA, nB, List.replicate 8 0, 0, fun _ => 0, 200, fun _ => 0⟩

/-- Concrete encoder arguments: `data_version 5`, part 0 of 2, one byte. -/
def args1 : EncArgs := ⟨5, 0, 2, some 1⟩

/-- The blob produced by `Encrypt.io_to_io` at the concrete inputs
(`rand1`, one-byte source `[65]`, `MAX_BLOB_SIZE = 4096`). -/
def blob1 : List Nat :=
  (encodeBlob H0 ks0 4096 k0 args1 rand1 [65] 0).toOption.getD []

/-- The blob produced at the same inputs but with the `target_size`
draw 200. -/
def blob2 : List Nat :=
  (encodeBlob H0 ks0 4096 k0 args1 rand2 [65] 0).toOption.getD []

/-- A concrete 20-byte header byte string (version 0, one part, empty
body). -/
def hdr20 : List Nat :=
  [76, 83, 1] ++ List.replicate 8 0 ++ [0, 0, 0, 0] ++ [0] ++ [0] ++ [0, 0, 0]

/-- A concrete blob whose two imprints verify under `k0` but whose header
CRC is wrong: both imprints, an 8-byte cipher nonce, a zero intro-padding
byte, `hdr20`, and four bytes that are not its CRC-32 (the keystream `ks0`
is zero, so the encrypted region equals its plaintext). -/
def badBlob : List Nat :=
  imprintBytes H0 k0 nA ++ imprintBytes H0 k0 nB ++ List.replicate 8 0 ++
    ([0] ++ hdr20 ++ [9, 9, 9, 9])

/-- A concrete fake blob for `k0` with `CLUSTER_SIZE = 300`. -/
def fake1 : List Nat := create_fake_bytes H0 300 k0 nA (fun i => i + 1)

theorem xorStream_length (m : Nat → Nat) (i : Nat) (l : List Nat) :
    (xorStream m i l).length = l.length := by
  induction l generalizing i with
  | nil => rfl
  | cons b bs ih => simp [xorStream, ih]

theorem xorStream_take (m : Nat → Nat) (i n : Nat) (l : List Nat) :
    (xorStream m i l).take n = xorStream m i (l.take n) := by
  induction l generalizing i n with
  | nil => simp [xorStream]
  | cons b bs ih =>
    cases n with
    | zero => simp [xorStream]
    | succ n' => simp [xorStream, ih]

theorem xorStream_drop (m : Nat → Nat) (i n : Nat) (l : List Nat) :
    (xorStream m i l).drop n = xorStream m (i + n) (l.drop n) := by
  induction l generalizing i n with
  | nil => simp [xorStream]
  | cons b bs ih =>
    cases n with
    | zero => simp [xorStream]
    | succ n' =>
      simp only [xorStream, List.drop_succ_cons, ih]
      ring_nf

theorem xorStream_invol (m : Nat → Nat) (i : Nat) (l : List Nat) :
    xorStream m i (xorStream m i l) = l := by
  induction l generalizing i with
  | nil => rfl
  | cons b bs ih => simp [xorStream, ih, Nat.xor_cancel_right]

theorem xorStream_append (m : Nat → Nat) (i : Nat) (l₁ l₂ : List Nat) :
    xorStream m i (l₁ ++ l₂) = xorStream m i l₁ ++ xorStream m (i + l₁.length) l₂ := by
  induction l₁ generalizing i with
  | nil => simp [xorStream]
  | cons b bs ih =>
    simp only [List.cons_append, xorStream, List.length_cons, List.append_eq]
    rw [ih (i + 1)]
    have h3 : i + 1 + bs.length = i + (bs.length + 1) := by omega
    rw [h3]

theorem natToBytesBE_length (w n : Nat) : (natToBytesBE w n).length = w := by
  induction w generalizing n with
  | zero => rfl
  | succ w' ih => simp [natToBytesBE, ih]

theorem bytesToNatBE_natToBytesBE (w n : Nat) :
    bytesToNatBE (natToBytesBE w n) = n % 256 ^ w := by
  induction w generalizing n with
  | zero => simp [natToBytesBE, bytesToNatBE, Nat.mod_one]
  | succ w' ih =>
    have h1 : bytesToNatBE (natToBytesBE w' (n / 256) ++ [n % 256]) =
        bytesToNatBE (natToBytesBE w' (n / 256)) * 256 + n % 256 := by
      simp [bytesToNatBE, List.foldl_append]
    have h2 : n % 256 ^ (w' + 1) = n % 256 + 256 * (n / 256 % 256 ^ w') := by
      rw [pow_succ, mul_comm (256 ^ w') 256, Nat.mod_mul]
    rw [natToBytesBE, h1, ih, h2]
    ring

theorem bytesToNatBE_natToBytesBE_of_lt (w n : Nat) (h : n < 256 ^ w) :
    bytesToNatBE (natToBytesBE w n) = n := by
  rw [bytesToNatBE_natToBytesBE, Nat.mod_eq_of_lt h]

theorem crc32Step_lt (c : Nat) (h : c < 2 ^ 32) : crc32Step c < 2 ^ 32 := by
  unfold crc32Step
  split
  · exact Nat.xor_lt_two_pow (by omega) (by norm_num)
  · omega

theorem crc32Step_iterate_lt (j c : Nat) (h : c < 2 ^ 32) :
    (crc32Step^[j]) c < 2 ^ 32 := by
  induction j generalizing c with
  | zero => exact h
  | succ j' ih =>
    rw [Function.iterate_succ_apply]
    exact ih _ (crc32Step_lt c h)

theorem crc32Byte_lt (c b : Nat) (h : c < 2 ^ 32) : crc32Byte c b < 2 ^ 32 := by
  unfold crc32Byte
  exact crc32Step_iterate_lt 8 _
    (Nat.xor_lt_two_pow h (lt_of_lt_of_le (Nat.mod_lt b (by norm_num)) (by norm_num)))

theorem crc32_lt (data : List Nat) : crc32 data < 2 ^ 32 := by
  unfold crc32
  have h : ∀ l c, c < 2 ^ 32 → List.foldl crc32Byte c l < 2 ^ 32 := by
    intro l
    induction l with
    | nil => intro c hc; exact hc
    | cons b bs ih => intro c hc; exact ih _ (crc32Byte_lt c b hc)
  exact Nat.xor_lt_two_pow (h data _ (by norm_num)) (by norm_num)

theorem bytes_to_int64_roundtrip (v : Int) (h1 : -(2 ^ 63) ≤ v) (h2 : v < 2 ^ 63) :
    bytes_to_int64 (natToBytesBE 8 ((v % (2 ^ 64 : Int)).toNat)) = v := by
  have hnn : (0 : Int) ≤ v % (2 ^ 64 : Int) := Int.emod_nonneg v (by norm_num)
  have hlt : v % (2 ^ 64 : Int) < (2 ^ 64 : Int) := Int.emod_lt_of_pos v (by norm_num)
  have hn : (v % (2 ^ 64 : Int)).toNat < 2 ^ 64 := by omega
  unfold bytes_to_int64
  rw [bytesToNatBE_natToBytesBE_of_lt 8 _ (by norm_num at hn ⊢; omega)]
  have hv : v % (2 ^ 64 : Int) = v ∨ v % (2 ^ 64 : Int) = v + 2 ^ 64 := by omega
  show (if (v % (2 ^ 64 : Int)).toNat < 2 ^ 63 then ((v % (2 ^ 64 : Int)).toNat : Int)
        else ((v % (2 ^ 64 : Int)).toNat : Int) - 2 ^ 64) = v
  rcases hv with hv | hv <;> split <;> omega

theorem randBytes_length (f : Nat → Nat) (n : Nat) : (randBytes f n).length = n := by
  simp [randBytes]

theorem introPadBytes_length (r : EncRand) :
    (introPadBytes r).length = 1 + r.introFirst % 64 := by
  simp [introPadBytes, randBytes_length, Nat.add_comm]

theorem imprintBytes_length (H : List Nat → List Nat) (k nonce : List Nat)
    (Hlen : ∀ x, (H x).length = 32) :
    (imprintBytes H k nonce).length = nonce.length + 32 := by
  simp [imprintBytes, Hlen]

theorem pk_matches_imprintBytes (H : List Nat → List Nat) (k nonce : List Nat)
    (hn : nonce.length = 24) :
    pk_matches_imprint_bytes H k (imprintBytes H k nonce) = true := by
  unfold pk_matches_imprint_bytes imprintBytes
  rw [List.take_left' hn, List.drop_left' hn]
  simp

theorem exceptBindOk {ε α β : Type} (a : α) (f : α → Except ε β) :
    (Except.ok a : Except ε α).bind f = f a := rfl

theorem readDec_seg (m : Nat → Nat) (P T plain pre seg rest : List Nat)
    (hP : P.length = 120) (hplain : plain = pre ++ (seg ++ rest))
    (sp j n : Nat) (hsp : sp = 120 + j) (hj : j = pre.length)
    (hn : n = seg.length) :
    readAndDecryptM m (P ++ (xorStream m 0 plain ++ T)) ⟨sp, j⟩ n =
      .ok (seg, ⟨sp + n, j + n⟩) := by
  subst hplain hj hn hsp
  have hlen : (P ++ (xorStream m 0 (pre ++ (seg ++ rest)) ++ T)).length =
      120 + (pre.length + (seg.length + rest.length)) + T.length := by
    simp [xorStream_length, hP]
    omega
  have hdrop : ((P ++ (xorStream m 0 (pre ++ (seg ++ rest)) ++ T)).drop
      (120 + pre.length)).take seg.length = xorStream m pre.length seg := by
    have h1 : (120 : Nat) + pre.length = P.length + pre.length := by omega
    rw [h1, List.drop_append]
    have h2 : (xorStream m 0 (pre ++ (seg ++ rest)) ++ T).drop pre.length =
        (xorStream m 0 (pre ++ (seg ++ rest))).drop pre.length ++ T := by
      apply List.drop_append_of_le_length
      simp [xorStream_length]
    rw [h2, xorStream_drop, List.drop_left' rfl]
    have h3 : seg.length ≤ (xorStream m (0 + pre.length) (seg ++ rest)).length := by
      simp [xorStream_length]
    rw [List.take_append_of_le_length h3, xorStream_take, List.take_left' rfl]
    simp
  unfold readAndDecryptM
  rw [if_pos (show 120 + pre.length + seg.length ≤ _ by rw [hlen]; omega)]
  have hgoal : xorStream m pre.length (((P ++ (xorStream m 0 (pre ++ (seg ++ rest))
      ++ T)).drop (120 + pre.length)).take seg.length) = seg := by
    rw [hdrop, xorStream_invol]
  refine congrArg Except.ok ?_
  exact Prod.ext hgoal rfl

set_option maxRecDepth 8000 in
theorem encodeBlob_eq (H : List Nat → List Nat)
    (ks : List Nat → List Nat → Nat → Nat) (MBS : Nat) (k : List Nat)
    (dv : Int) (pi pl ps : Nat) (r : EncRand) (data : List Nat) (pos : Nat)
    (Hlen : ∀ x, (H x).length = 32) (hr : r.WF)
    (hdv : -(2 ^ 63) ≤ dv ∧ dv < 2 ^ 63)
    (hpl : 1 ≤ pl ∧ pl ≤ 256) (hpi : pi ≤ 255) (hps : ps < 2 ^ 24)
    (hfs : data.length < 2 ^ 32)
    (hbody : pos + ps ≤ data.length)
    (hcur : 149 + r.introFirst % 64 + ps ≤ r.targetSize)
    (hmbs : r.targetSize ≤ MBS) :
    encodeBlob H ks MBS k ⟨dv, (pi : Int), (pl : Int), some (ps : Int)⟩ r data pos =
      .ok (encBlobBytes H ks k r dv data.length pl pi ps ((data.drop pos).take ps)) := by
  obtain ⟨hA, hB, hN, hAB⟩ := hr
  have hlenA : (imprintBytes H k r.nonceA).length = 56 := by
    rw [imprintBytes_length H k _ Hlen, hA]
  have hlenB : (imprintBytes H k r.nonceB).length = 56 := by
    rw [imprintBytes_length H k _ Hlen, hB]
  have hImp : imprintBytes H k r.nonceA ≠ imprintBytes H k r.nonceB := by
    intro he
    apply hAB
    have := congrArg (List.take 24) he
    rwa [imprintBytes, imprintBytes, List.take_left' hA, List.take_left' hB] at this
  have e1 : int64_to_bytes dv = .ok (natToBytesBE 8 ((dv % (2 ^ 64 : Int)).toNat)) := by
    rw [int64_to_bytes, if_pos hdv]
  have e2 : uint32_to_bytes data.length = .ok (natToBytesBE 4 data.length) := by
    rw [uint32_to_bytes, if_pos (by norm_num at hfs ⊢; omega)]
  have hc3 : 0 ≤ (pl : Int) - 1 ∧ (pl : Int) - 1 < 256 := by
    constructor <;> omega
  have hc3v : ((pl : Int) - 1).toNat = pl - 1 := by omega
  have e3 : intToUint8 ((pl : Int) - 1) = .ok [pl - 1] := by
    rw [intToUint8, if_pos hc3, hc3v]
  have hc4 : 0 ≤ (pi : Int) ∧ (pi : Int) < 256 := by constructor <;> omega
  have e4 : intToUint8 (pi : Int) = .ok [pi] := by
    rw [intToUint8, if_pos hc4]
    simp
  have hc5 : 0 ≤ (ps : Int) ∧ (ps : Int) < 256 ^ 3 := by
    constructor
    · omega
    · norm_num at hps ⊢
      omega
  have e5 : intToUint24 (ps : Int) = .ok (natToBytesBE 3 ps) := by
    rw [intToUint24, if_pos hc5]
    simp
  have e6 : ∀ l : List Nat, uint32_to_bytes (crc32 l) = .ok (natToBytesBE 4 (crc32 l)) := by
    intro l
    rw [uint32_to_bytes, if_pos (by have := crc32_lt l; norm_num at this ⊢; omega)]
  have e7 : readOrFail data pos ps = some ((data.drop pos).take ps) := by
    rw [readOrFail, if_pos hbody]
  unfold encodeBlob
  rw [if_neg hImp]
  rw [e1, exceptBindOk, e2, exceptBindOk]
  rw [if_neg (by simp)]
  simp only [Option.getD_some, e3, exceptBindOk, e4, e5, e6, e7,
    Int.toNat_natCast]
  split_ifs with h1 h2
  · exfalso
    simp [hlenA, hlenB, hN, introPadBytes, randBytes_length,
      natToBytesBE_length, xorStream_length] at h1
    omega
  · exfalso
    simp [hlenA, hlenB, hN, introPadBytes, randBytes_length,
      natToBytesBE_length, xorStream_length] at h2
    omega
  · rfl

theorem belongsM_enc (H : List Nat → List Nat)
    (ks : List Nat → List Nat → Nat → Nat) (k : List Nat) (r : EncRand)
    (dv : Int) (fs pl pi ps : Nat) (body : List Nat)
    (Hlen : ∀ x, (H x).length = 32)
    (hA : r.nonceA.length = 24) (hB : r.nonceB.length = 24)
    (hN : r.cipherNonce.length = 8) :
    belongsM H k (encBlobBytes H ks k r dv fs pl pi ps body) .start =
      (true, ⟨some true, none, none, false, 56, none, 0⟩) := by
  have hlenA : (imprintBytes H k r.nonceA).length = 56 := by
    rw [imprintBytes_length H k _ Hlen, hA]
  have hblob : encBlobBytes H ks k r dv fs pl pi ps body =
      imprintBytes H k r.nonceA ++ (imprintBytes H k r.nonceB ++
        (r.cipherNonce ++ (xorStream (ks k r.cipherNonce) 0
          (encPlain r dv fs pl pi ps body) ++ randBytes r.tailOracle
            (r.targetSize - ((encPre H k r).length +
              (encPlain r dv fs pl pi ps body).length))))) := by
    simp [encBlobBytes, encPre, List.append_assoc]
  have hrd : readOrFail (encBlobBytes H ks k r dv fs pl pi ps body) 0 56 =
      some (imprintBytes H k r.nonceA) := by
    rw [readOrFail]
    rw [if_pos (by rw [hblob]; simp [hlenA])]
    rw [List.drop_zero, hblob, List.take_left' hlenA]
  unfold belongsM DioSt.start
  simp only [imprintFullLen]
  rw [hrd]
  simp [pk_matches_imprintBytes H k r.nonceA hA]

theorem containsM_enc (H : List Nat → List Nat)
    (ks : List Nat → List Nat → Nat → Nat) (k : List Nat) (r : EncRand)
    (dv : Int) (fs pl pi ps : Nat) (body : List Nat)
    (Hlen : ∀ x, (H x).length = 32)
    (hA : r.nonceA.length = 24) (hB : r.nonceB.length = 24)
    (hN : r.cipherNonce.length = 8) :
    containsM H k (encBlobBytes H ks k r dv fs pl pi ps body)
      ⟨some true, none, none, false, 56, none, 0⟩ =
      (true, ⟨some true, some true, none, false, 112, none, 0⟩) := by
  have hlenA : (imprintBytes H k r.nonceA).length = 56 := by
    rw [imprintBytes_length H k _ Hlen, hA]
  have hlenB : (imprintBytes H k r.nonceB).length = 56 := by
    rw [imprintBytes_length H k _ Hlen, hB]
  have hblob : encBlobBytes H ks k r dv fs pl pi ps body =
      imprintBytes H k r.nonceA ++ (imprintBytes H k r.nonceB ++
        (r.cipherNonce ++ (xorStream (ks k r.cipherNonce) 0
          (encPlain r dv fs pl pi ps body) ++ randBytes r.tailOracle
            (r.targetSize - ((encPre H k r).length +
              (encPlain r dv fs pl pi ps body).length))))) := by
    simp [encBlobBytes, encPre, List.append_assoc]
  have hrd : readOrFail (encBlobBytes H ks k r dv fs pl pi ps body) 56 56 =
      some (imprintBytes H k r.nonceB) := by
    rw [readOrFail]
    rw [if_pos (by rw [hblob]; simp [hlenA, hlenB]; omega)]
    rw [hblob, List.drop_left' hlenA, List.take_left' hlenB]
  unfold containsM belongsM
  simp only [imprintFullLen]
  rw [hrd]
  simp [pk_matches_imprintBytes H k r.nonceB hB]

theorem exceptBindOk2 {ε α β : Type} (a : α) (f : α → Except ε β) :
    (Except.ok a : Except ε α) >>= f = f a := rfl

theorem exceptPureEq {ε α : Type} (a : α) : (pure a : Except ε α) = .ok a := rfl

theorem readDecEnc (H : List Nat → List Nat)
    (ks : List Nat → List Nat → Nat → Nat) (k : List Nat) (r : EncRand)
    (dv : Int) (fs pl pi ps : Nat) (body : List Nat)
    (Hlen : ∀ x, (H x).length = 32)
    (hA : r.nonceA.length = 24) (hB : r.nonceB.length = 24)
    (hN : r.cipherNonce.length = 8)
    (pre seg rest : List Nat)
    (hplain : encPlain r dv fs pl pi ps body = pre ++ (seg ++ rest))
    (sp j n : Nat) (hsp : sp = 120 + j) (hj : j = pre.length)
    (hn : n = seg.length) :
    readAndDecryptM (ks k r.cipherNonce)
      (encBlobBytes H ks k r dv fs pl pi ps body) ⟨sp, j⟩ n =
      .ok (seg, ⟨sp + n, j + n⟩) := by
  have hpre120 : (encPre H k r).length = 120 := by
    simp [encPre, imprintBytes_length H k _ Hlen, hA, hB, hN]
  unfold encBlobBytes
  rw [List.append_assoc]
  exact readDec_seg (ks k r.cipherNonce) (encPre H k r)
    (randBytes r.tailOracle (r.targetSize - ((encPre H k r).length +
      (encPlain r dv fs pl pi ps body).length)))
    (encPlain r dv fs pl pi ps body) pre seg rest hpre120 hplain sp j n hsp hj hn

theorem readHeaderM_enc (H : List Nat → List Nat)
    (ks : List Nat → List Nat → Nat → Nat) (k : List Nat) (r : EncRand)
    (dv : Int) (fs pl pi ps : Nat) (body : List Nat)
    (Hlen : ∀ x, (H x).length = 32)
    (hA : r.nonceA.length = 24) (hB : r.nonceB.length = 24)
    (hN : r.cipherNonce.length = 8)
    (hdv : -(2 ^ 63) ≤ dv ∧ dv < 2 ^ 63)
    (hpl1 : 1 ≤ pl) (hfs : fs < 2 ^ 32) (hps : ps < 2 ^ 24) :
    readHeaderM ks k (encBlobBytes H ks k r dv fs pl pi ps body) 112 =
      .ok (⟨1, dv, fs, pl, pi, ps⟩, r.cipherNonce,
        ⟨145 + r.introFirst % 64, 25 + r.introFirst % 64⟩) := by
  have hlenA : (imprintBytes H k r.nonceA).length = 56 := by
    rw [imprintBytes_length H k _ Hlen, hA]
  have hlenB : (imprintBytes H k r.nonceB).length = 56 := by
    rw [imprintBytes_length H k _ Hlen, hB]
  have hnonce : readOrFail (encBlobBytes H ks k r dv fs pl pi ps body) 112 8 =
      some r.cipherNonce := by
    have hblob2 : encBlobBytes H ks k r dv fs pl pi ps body =
        (imprintBytes H k r.nonceA ++ imprintBytes H k r.nonceB) ++
          (r.cipherNonce ++ (xorStream (ks k r.cipherNonce) 0
            (encPlain r dv fs pl pi ps body) ++ randBytes r.tailOracle
              (r.targetSize - ((encPre H k r).length +
                (encPlain r dv fs pl pi ps body).length)))) := by
      simp [encBlobBytes, encPre, List.append_assoc]
    have h112 : (imprintBytes H k r.nonceA ++
        imprintBytes H k r.nonceB).length = 112 := by
      simp [hlenA, hlenB]
    rw [readOrFail, if_pos (by rw [hblob2]; simp [h112, hN]; omega)]
    rw [hblob2, List.drop_left' h112, List.take_left' hN]
  have st1 := readDecEnc H ks k r dv fs pl pi ps body Hlen hA hB hN
    [] [r.introFirst % 256]
    (randBytes r.introOracle (r.introFirst % 64) ++
      (encHeaderBytes dv fs pl pi ps ++
        (natToBytesBE 4 (crc32 (encHeaderBytes dv fs pl pi ps)) ++
          (body ++ natToBytesBE 4 (crc32 body)))))
    (by simp [encPlain, introPadBytes]) 120 0 1 (by norm_num) (by simp) (by simp)
  have st2 := readDecEnc H ks k r dv fs pl pi ps body Hlen hA hB hN
    [r.introFirst % 256] (randBytes r.introOracle (r.introFirst % 64))
    (encHeaderBytes dv fs pl pi ps ++
      (natToBytesBE 4 (crc32 (encHeaderBytes dv fs pl pi ps)) ++
        (body ++ natToBytesBE 4 (crc32 body))))
    (by simp [encPlain, introPadBytes]) 121 1 (r.introFirst % 256 % 64)
    (by norm_num) (by simp) (by simp [randBytes_length]; omega)
  have st3 := readDecEnc H ks k r dv fs pl pi ps body Hlen hA hB hN
    ([r.introFirst % 256] ++ randBytes r.introOracle (r.introFirst % 64))
    [76, 83]
    ([1] ++ (natToBytesBE 8 ((dv % (2 ^ 64 : Int)).toNat) ++
      (natToBytesBE 4 fs ++ ([pl - 1] ++ ([pi] ++ (natToBytesBE 3 ps ++
        (natToBytesBE 4 (crc32 (encHeaderBytes dv fs pl pi ps)) ++
          (body ++ natToBytesBE 4 (crc32 body)))))))))
    (by simp [encPlain, introPadBytes, encHeaderBytes, List.append_assoc])
    (121 + r.introFirst % 256 % 64) (1 + r.introFirst % 256 % 64) 2
    (by omega) (by simp [randBytes_length]; omega) (by simp)
  have st4 := readDecEnc H ks k r dv fs pl pi ps body Hlen hA hB hN
    ([r.introFirst % 256] ++ randBytes r.introOracle (r.introFirst % 64) ++
      [76, 83])
    [1]
    (natToBytesBE 8 ((dv % (2 ^ 64 : Int)).toNat) ++
      (natToBytesBE 4 fs ++ ([pl - 1] ++ ([pi] ++ (natToBytesBE 3 ps ++
        (natToBytesBE 4 (crc32 (encHeaderBytes dv fs pl pi ps)) ++
          (body ++ natToBytesBE 4 (crc32 body))))))))
    (by simp [encPlain, introPadBytes, encHeaderBytes, List.append_assoc])
    (121 + r.introFirst % 256 % 64 + 2) (1 + r.introFirst % 256 % 64 + 2) 1
    (by omega) (by simp [randBytes_length]; omega) (by simp)
  have st5 := readDecEnc H ks k r dv fs pl pi ps body Hlen hA hB hN
    ([r.introFirst % 256] ++ randBytes r.introOracle (r.introFirst % 64) ++
      [76, 83] ++ [1])
    (natToBytesBE 8 ((dv % (2 ^ 64 : Int)).toNat))
    (natToBytesBE 4 fs ++ ([pl - 1] ++ ([pi] ++ (natToBytesBE 3 ps ++
      (natToBytesBE 4 (crc32 (encHeaderBytes dv fs pl pi ps)) ++
        (body ++ natToBytesBE 4 (crc32 body)))))))
    (by simp [encPlain, introPadBytes, encHeaderBytes, List.append_assoc])
    (121 + r.introFirst % 256 % 64 + 2 + 1) (1 + r.introFirst % 256 % 64 + 2 + 1) 8
    (by omega) (by simp [randBytes_length]; omega)
    (by simp [natToBytesBE_length])
  have st6 := readDecEnc H ks k r dv fs pl pi ps body Hlen hA hB hN
    ([r.introFirst % 256] ++ randBytes r.introOracle (r.introFirst % 64) ++
      [76, 83] ++ [1] ++ natToBytesBE 8 ((dv % (2 ^ 64 : Int)).toNat))
    (natToBytesBE 4 fs)
    ([pl - 1] ++ ([pi] ++ (natToBytesBE 3 ps ++
      (natToBytesBE 4 (crc32 (encHeaderBytes dv fs pl pi ps)) ++
        (body ++ natToBytesBE 4 (crc32 body))))))
    (by simp [encPlain, introPadBytes, encHeaderBytes, List.append_assoc])
    (121 + r.introFirst % 256 % 64 + 2 + 1 + 8)
    (1 + r.introFirst % 256 % 64 + 2 + 1 + 8) 4
    (by omega) (by simp [randBytes_length, natToBytesBE_length]; omega)
    (by simp [natToBytesBE_length])
  have st7 := readDecEnc H ks k r dv fs pl pi ps body Hlen hA hB hN
    ([r.introFirst % 256] ++ randBytes r.introOracle (r.introFirst % 64) ++
      [76, 83] ++ [1] ++ natToBytesBE 8 ((dv % (2 ^ 64 : Int)).toNat) ++
      natToBytesBE 4 fs)
    [pl - 1]
    ([pi] ++ (natToBytesBE 3 ps ++
      (natToBytesBE 4 (crc32 (encHeaderBytes dv fs pl pi ps)) ++
        (body ++ natToBytesBE 4 (crc32 body)))))
    (by simp [encPlain, introPadBytes, encHeaderBytes, List.append_assoc])
    (121 + r.introFirst % 256 % 64 + 2 + 1 + 8 + 4)
    (1 + r.introFirst % 256 % 64 + 2 + 1 + 8 + 4) 1
    (by omega) (by simp [randBytes_length, natToBytesBE_length]; omega)
    (by simp)
  have st8 := readDecEnc H ks k r dv fs pl pi ps body Hlen hA hB hN
    ([r.introFirst % 256] ++ randBytes r.introOracle (r.introFirst % 64) ++
      [76, 83] ++ [1] ++ natToBytesBE 8 ((dv % (2 ^ 64 : Int)).toNat) ++
      natToBytesBE 4 fs ++ [pl - 1])
    [pi]
    (natToBytesBE 3 ps ++
      (natToBytesBE 4 (crc32 (encHeaderBytes dv fs pl pi ps)) ++
        (body ++ natToBytesBE 4 (crc32 body))))
    (by simp [encPlain, introPadBytes, encHeaderBytes, List.append_assoc])
    (121 + r.introFirst % 256 % 64 + 2 + 1 + 8 + 4 + 1)
    (1 + r.introFirst % 256 % 64 + 2 + 1 + 8 + 4 + 1) 1
    (by omega) (by simp [randBytes_length, natToBytesBE_length]; omega)
    (by simp)
  have st9 := readDecEnc H ks k r dv fs pl pi ps body Hlen hA hB hN
    ([r.introFirst % 256] ++ randBytes r.introOracle (r.introFirst % 64) ++
      [76, 83] ++ [1] ++ natToBytesBE 8 ((dv % (2 ^ 64 : Int)).toNat) ++
      natToBytesBE 4 fs ++ [pl - 1] ++ [pi])
    (natToBytesBE 3 ps)
    (natToBytesBE 4 (crc32 (encHeaderBytes dv fs pl pi ps)) ++
      (body ++ natToBytesBE 4 (crc32 body)))
    (by simp [encPlain, introPadBytes, encHeaderBytes, List.append_assoc])
    (121 + r.introFirst % 256 % 64 + 2 + 1 + 8 + 4 + 1 + 1)
    (1 + r.introFirst % 256 % 64 + 2 + 1 + 8 + 4 + 1 + 1) 3
    (by omega) (by simp [randBytes_length, natToBytesBE_length]; omega)
    (by simp [natToBytesBE_length])
  have st10 := readDecEnc H ks k r dv fs pl pi ps body Hlen hA hB hN
    ([r.introFirst % 256] ++ randBytes r.introOracle (r.introFirst % 64) ++
      [76, 83] ++ [1] ++ natToBytesBE 8 ((dv % (2 ^ 64 : Int)).toNat) ++
      natToBytesBE 4 fs ++ [pl - 1] ++ [pi] ++ natToBytesBE 3 ps)
    (natToBytesBE 4 (crc32 (encHeaderBytes dv fs pl pi ps)))
    (body ++ natToBytesBE 4 (crc32 body))
    (by simp [encPlain, introPadBytes, encHeaderBytes, List.append_assoc])
    (121 + r.introFirst % 256 % 64 + 2 + 1 + 8 + 4 + 1 + 1 + 3)
    (1 + r.introFirst % 256 % 64 + 2 + 1 + 8 + 4 + 1 + 1 + 3) 4
    (by omega) (by simp [randBytes_length, natToBytesBE_length]; omega)
    (by simp [natToBytesBE_length])
  have hcrc1 : bytesToNatBE (natToBytesBE 4
      (crc32 (encHeaderBytes dv fs pl pi ps))) =
      crc32 (encHeaderBytes dv fs pl pi ps) :=
    bytesToNatBE_natToBytesBE_of_lt 4 _
      (by have := crc32_lt (encHeaderBytes dv fs pl pi ps); norm_num at this ⊢; omega)
  have hdvrt : bytes_to_int64 (natToBytesBE 8 ((dv % (2 ^ 64 : Int)).toNat)) = dv :=
    bytes_to_int64_roundtrip dv hdv.1 hdv.2
  have hfsrt : bytes_to_uint32 (natToBytesBE 4 fs) = fs := by
    unfold bytes_to_uint32
    exact bytesToNatBE_natToBytesBE_of_lt 4 fs (by norm_num at hfs ⊢; omega)
  have hpsrt : bytes_to_uint24 (natToBytesBE 3 ps) = ps := by
    unfold bytes_to_uint24
    exact bytesToNatBE_natToBytesBE_of_lt 3 ps (by norm_num at hps ⊢; omega)
  have hplrt : bytes_to_uint8 [pl - 1] + 1 = pl := by
    simp [bytes_to_uint8, bytesToNatBE]
    omega
  have hpirt : bytes_to_uint8 [pi] = pi := by
    simp [bytes_to_uint8, bytesToNatBE]
  unfold readHeaderM
  rw [hnonce]
  simp only [st1, st2, st3, st4, st5, st6, st7, st8, st9, st10,
    exceptBindOk2, exceptPureEq, List.headI, hdvrt, hfsrt, hpsrt, hpirt,
    hcrc1]
  simp [hplrt, encHeaderBytes]
  omega

theorem headerM_enc (H : List Nat → List Nat)
    (ks : List Nat → List Nat → Nat → Nat) (k : List Nat) (r : EncRand)
    (dv : Int) (fs pl pi ps : Nat) (body : List Nat)
    (Hlen : ∀ x, (H x).length = 32)
    (hA : r.nonceA.length = 24) (hB : r.nonceB.length = 24)
    (hN : r.cipherNonce.length = 8)
    (hdv : -(2 ^ 63) ≤ dv ∧ dv < 2 ^ 63)
    (hpl1 : 1 ≤ pl) (hfs : fs < 2 ^ 32) (hps : ps < 2 ^ 24) :
    headerM H ks k (encBlobBytes H ks k r dv fs pl pi ps body) .start =
      (.ok ⟨1, dv, fs, pl, pi, ps⟩,
       ⟨some true, some true, some ⟨1, dv, fs, pl, pi, ps⟩, false,
        145 + r.introFirst % 64, some r.cipherNonce,
        25 + r.introFirst % 64⟩) := by
  unfold headerM
  rw [belongsM_enc H ks k r dv fs pl pi ps body Hlen hA hB hN]
  simp only []
  rw [containsM_enc H ks k r dv fs pl pi ps body Hlen hA hB hN]
  simp only [readHeaderM_enc H ks k r dv fs pl pi ps body Hlen hA hB hN hdv
    hpl1 hfs hps]
  simp

theorem readDataM_enc (H : List Nat → List Nat)
    (ks : List Nat → List Nat → Nat → Nat) (k : List Nat) (r : EncRand)
    (dv : Int) (fs pl pi ps : Nat) (body : List Nat)
    (Hlen : ∀ x, (H x).length = 32)
    (hA : r.nonceA.length = 24) (hB : r.nonceB.length = 24)
    (hN : r.cipherNonce.length = 8)
    (hdv : -(2 ^ 63) ≤ dv ∧ dv < 2 ^ 63)
    (hpl1 : 1 ≤ pl) (hfs : fs < 2 ^ 32) (hps : ps < 2 ^ 24)
    (hbodyLen : body.length = ps) :
    readDataM H ks k (encBlobBytes H ks k r dv fs pl pi ps body) .start =
      (.ok body,
       ⟨some true, some true, some ⟨1, dv, fs, pl, pi, ps⟩, true,
        145 + r.introFirst % 64 + ps + 4, some r.cipherNonce,
        25 + r.introFirst % 64 + ps + 4⟩) := by
  have st11 := readDecEnc H ks k r dv fs pl pi ps body Hlen hA hB hN
    ([r.introFirst % 256] ++ randBytes r.introOracle (r.introFirst % 64) ++
      [76, 83] ++ [1] ++ natToBytesBE 8 ((dv % (2 ^ 64 : Int)).toNat) ++
      natToBytesBE 4 fs ++ [pl - 1] ++ [pi] ++ natToBytesBE 3 ps ++
      natToBytesBE 4 (crc32 (encHeaderBytes dv fs pl pi ps)))
    body
    (natToBytesBE 4 (crc32 body))
    (by simp [encPlain, introPadBytes, encHeaderBytes, List.append_assoc])
    (145 + r.introFirst % 64) (25 + r.introFirst % 64) ps
    (by omega) (by simp [randBytes_length, natToBytesBE_length]; omega)
    hbodyLen.symm
  have st12 := readDecEnc H ks k r dv fs pl pi ps body Hlen hA hB hN
    ([r.introFirst % 256] ++ randBytes r.introOracle (r.introFirst % 64) ++
      [76, 83] ++ [1] ++ natToBytesBE 8 ((dv % (2 ^ 64 : Int)).toNat) ++
      natToBytesBE 4 fs ++ [pl - 1] ++ [pi] ++ natToBytesBE 3 ps ++
      natToBytesBE 4 (crc32 (encHeaderBytes dv fs pl pi ps)) ++ body)
    (natToBytesBE 4 (crc32 body))
    []
    (by simp [encPlain, introPadBytes, encHeaderBytes, List.append_assoc])
    (145 + r.introFirst % 64 + ps) (25 + r.introFirst % 64 + ps) 4
    (by omega)
    (by simp [randBytes_length, natToBytesBE_length, hbodyLen]; omega)
    (by simp [natToBytesBE_length])
  have hbcrt : bytes_to_uint32 (natToBytesBE 4 (crc32 body)) = crc32 body := by
    unfold bytes_to_uint32
    exact bytesToNatBE_natToBytesBE_of_lt 4 _
      (by have := crc32_lt body; norm_num at this ⊢; omega)
  unfold readDataM
  rw [headerM_enc H ks k r dv fs pl pi ps body Hlen hA hB hN hdv hpl1 hfs hps]
  simp [DioSt.start, st11, st12, hbcrt]

theorem encryptInit_ok (MPCS : Nat) (dv : Int) (pi pl ps : Nat)
    (hpi : pi ≤ 255) (hpl : 1 ≤ pl ∧ pl ≤ 256) (hps : ps ≤ MPCS) :
    encryptInit MPCS ⟨dv, (pi : Int), (pl : Int), some (ps : Int)⟩ = .ok () := by
  unfold encryptInit
  split_ifs with h1 h2 h3 h4 h5 h6
  all_goals try rfl
  all_goals simp_all
  all_goals omega

/-- C1: Blob-level round-trip.  For every key, data version in `int64`
range, valid `(part_idx, parts_len, part_size)` combination, well-formed
random draws and source stream holding at least `part_size` bytes past its
position, `Encrypt.io_to_io` succeeds, and decoding the produced blob with
a fresh `DecryptedIO` under the same key yields a header whose
`data_version`, `parts_len`, `part_idx` and `part_size` equal the encoder
inputs and whose `FULL_SIZE` equals the source stream total size, while
`read_data` returns exactly the `part_size` bytes read from the source. -/
theorem C1_blob_roundtrip (H : List Nat → List Nat)
    (ks : List Nat → List Nat → Nat → Nat) (MBS MPCS : Nat) (k : List Nat)
    (dv : Int) (pi pl ps : Nat) (r : EncRand) (data : List Nat) (pos : Nat)
    (Hlen : ∀ x, (H x).length = 32) (hr : r.WF)
    (hdv : -(2 ^ 63) ≤ dv ∧ dv < 2 ^ 63)
    (hpi : pi ≤ 255) (hpl : 1 ≤ pl ∧ pl ≤ 256)
    (hps : ps ≤ MPCS) (hps24 : ps < 2 ^ 24)
    (hfs : data.length < 2 ^ 32) (hbody : pos + ps ≤ data.length)
    (hcur : 149 + r.introFirst % 64 + ps ≤ r.targetSize)
    (hmbs : r.targetSize ≤ MBS) :
    encryptInit MPCS ⟨dv, (pi : Int), (pl : Int), some (ps : Int)⟩ = .ok () ∧
    ∃ blob,
      encodeBlob H ks MBS k ⟨dv, (pi : Int), (pl : Int), some (ps : Int)⟩
        r data pos = .ok blob ∧
      headerOf H ks k blob = .ok ⟨1, dv, data.length, pl, pi, ps⟩ ∧
      read_data H ks k blob = .ok ((data.drop pos).take ps) := by
  obtain ⟨hA, hB, hN, hAB⟩ := hr
  have hbl : ((data.drop pos).take ps).length = ps := by
    simp [List.length_take, List.length_drop]
    omega
  refine ⟨encryptInit_ok MPCS dv pi pl ps hpi hpl hps,
    encBlobBytes H ks k r dv data.length pl pi ps ((data.drop pos).take ps),
    encodeBlob_eq H ks MBS k dv pi pl ps r data pos Hlen ⟨hA, hB, hN, hAB⟩
      hdv hpl hpi hps24 hfs hbody hcur hmbs, ?_, ?_⟩
  · unfold headerOf
    rw [headerM_enc H ks k r dv data.length pl pi ps ((data.drop pos).take ps)
      Hlen hA hB hN hdv hpl.1 hfs hps24]
  · unfold read_data
    rw [readDataM_enc H ks k r dv data.length pl pi ps ((data.drop pos).take ps)
      Hlen hA hB hN hdv hpl.1 hfs hps24 hbl]

/-- Witness for C1 at concrete inputs: key `k0`, data version 5, part 0 of
2 of size 1, source `[65]`, draws `rand1`. -/
theorem C1_blob_roundtrip_witness :
    encryptInit 100 ⟨5, (0 : Int), (2 : Int), some (1 : Int)⟩ = .ok () ∧
    ∃ blob,
      encodeBlob H0 ks0 4096 k0 ⟨5, (0 : Int), (2 : Int), some (1 : Int)⟩
        rand1 [65] 0 = .ok blob ∧
      headerOf H0 ks0 k0 blob = .ok ⟨1, 5, 1, 2, 0, 1⟩ ∧
      read_data H0 ks0 k0 blob = .ok [65] :=
  C1_blob_roundtrip H0 ks0 4096 100 k0 5 0 2 1 rand1 [65] 0
    (fun _ => rfl) ⟨rfl, rfl, rfl, by decide⟩ (by decide) (by decide)
    (by decide) (by decide) (by decide) (by decide) (by decide) (by decide)
    (by decide)

theorem encodeBlob_none (H : List Nat → List Nat)
    (ks : List Nat → List Nat → Nat → Nat) (MBS : Nat) (k : List Nat)
    (dv : Int) (r : EncRand) (data : List Nat) (pos : Nat) :
    encodeBlob H ks MBS k ⟨dv, 0, 1, none⟩ r data pos =
      encodeBlob H ks MBS k ⟨dv, 0, 1, some (data.length : Int)⟩ r data pos := by
  unfold encodeBlob
  simp

/-- C10: When `part_size` is omitted (permitted only for `part_idx = 0`,
`parts_len = 1`), `io_to_io` sets `part_size` to the total size of the
source stream: the written header has `PART_SIZE = FULL_SIZE = |data|` and
the entire source stream becomes the blob body. -/
theorem C10_omitted_part_size (H : List Nat → List Nat)
    (ks : List Nat → List Nat → Nat → Nat) (MBS : Nat) (k : List Nat)
    (dv : Int) (r : EncRand) (data : List Nat)
    (Hlen : ∀ x, (H x).length = 32) (hr : r.WF)
    (hdv : -(2 ^ 63) ≤ dv ∧ dv < 2 ^ 63)
    (hfs24 : data.length < 2 ^ 24)
    (hcur : 149 + r.introFirst % 64 + data.length ≤ r.targetSize)
    (hmbs : r.targetSize ≤ MBS) :
    ∃ blob,
      encodeBlob H ks MBS k ⟨dv, 0, 1, none⟩ r data 0 = .ok blob ∧
      headerOf H ks k blob = .ok ⟨1, dv, data.length, 1, 0, data.length⟩ ∧
      read_data H ks k blob = .ok data := by
  obtain ⟨hA, hB, hN, hAB⟩ := hr
  have hfs : data.length < 2 ^ 32 := by norm_num at hfs24 ⊢; omega
  have hslice : (data.drop 0).take data.length = data := by simp
  have henc := encodeBlob_eq H ks MBS k dv 0 1 data.length r data 0 Hlen
    ⟨hA, hB, hN, hAB⟩ hdv ⟨by omega, by omega⟩ (by omega) hfs24 hfs
    (by omega) hcur hmbs
  rw [hslice] at henc
  refine ⟨encBlobBytes H ks k r dv data.length 1 0 data.length data, ?_, ?_, ?_⟩
  · rw [encodeBlob_none H ks MBS k dv r data 0]
    have hargs : (⟨dv, ((0 : Nat) : Int), ((1 : Nat) : Int),
        some (data.length : Int)⟩ : EncArgs) =
        ⟨dv, 0, 1, some (data.length : Int)⟩ := by norm_num
    rw [hargs] at henc
    exact henc
  · unfold headerOf
    rw [headerM_enc H ks k r dv data.length 1 0 data.length data Hlen hA hB hN
      hdv (by omega) hfs hfs24]
  · unfold read_data
    rw [readDataM_enc H ks k r dv data.length 1 0 data.length data Hlen hA hB
      hN hdv (by omega) hfs hfs24 rfl]

/-- Witness for C10 at concrete inputs: draws `rand1`, source `[65]`. -/
theorem C10_omitted_part_size_witness :
    ∃ blob,
      encodeBlob H0 ks0 4096 k0 ⟨5, 0, 1, none⟩ rand1 [65] 0 = .ok blob ∧
      headerOf H0 ks0 k0 blob = .ok ⟨1, 5, 1, 1, 0, 1⟩ ∧
      read_data H0 ks0 k0 blob = .ok [65] :=
  C10_omitted_part_size H0 ks0 4096 k0 5 rand1 [65]
    (fun _ => rfl) ⟨rfl, rfl, rfl, by decide⟩ (by decide) (by decide)
    (by decide) (by decide)

/-- C3 (amended): the blob written by `Encrypt.io_to_io` has total length
exactly the sampled `target_size` draw, which lies between the encrypted
region end and `MAX_BLOB_SIZE`; in particular every blob is at most
`MAX_BLOB_SIZE` long, but its length varies with the draw rather than
always equalling the container cluster size. -/
theorem C3_blob_length_amended (H : List Nat → List Nat)
    (ks : List Nat → List Nat → Nat → Nat) (MBS : Nat) (k : List Nat)
    (dv : Int) (pi pl ps : Nat) (r : EncRand) (data : List Nat) (pos : Nat)
    (Hlen : ∀ x, (H x).length = 32) (hr : r.WF)
    (hdv : -(2 ^ 63) ≤ dv ∧ dv < 2 ^ 63)
    (hpl : 1 ≤ pl ∧ pl ≤ 256) (hpi : pi ≤ 255) (hps : ps < 2 ^ 24)
    (hfs : data.length < 2 ^ 32)
    (hbody : pos + ps ≤ data.length)
    (hcur : 149 + r.introFirst % 64 + ps ≤ r.targetSize)
    (hmbs : r.targetSize ≤ MBS) :
    ∃ blob,
      encodeBlob H ks MBS k ⟨dv, (pi : Int), (pl : Int), some (ps : Int)⟩
        r data pos = .ok blob ∧
      blob.length = r.targetSize ∧ blob.length ≤ MBS := by
  obtain ⟨hA, hB, hN, hAB⟩ := hr
  have hlenA : (imprintBytes H k r.nonceA).length = 56 := by
    rw [imprintBytes_length H k _ Hlen, hA]
  have hlenB : (imprintBytes H k r.nonceB).length = 56 := by
    rw [imprintBytes_length H k _ Hlen, hB]
  have hbl : ((data.drop pos).take ps).length = ps := by
    simp [List.length_take, List.length_drop]
    omega
  refine ⟨encBlobBytes H ks k r dv data.length pl pi ps ((data.drop pos).take ps),
    encodeBlob_eq H ks MBS k dv pi pl ps r data pos Hlen ⟨hA, hB, hN, hAB⟩
      hdv hpl hpi hps hfs hbody hcur hmbs, ?_⟩
  have hlen : (encBlobBytes H ks k r dv data.length pl pi ps
      ((data.drop pos).take ps)).length = r.targetSize := by
    simp [encBlobBytes, encPre, encPlain, encHeaderBytes, introPadBytes,
      randBytes_length, natToBytesBE_length, xorStream_length, hlenA, hlenB,
      hN, hbl]
    omega
  exact ⟨hlen, by omega⟩

set_option maxRecDepth 100000 in
/-- Counterexample to C3 as stated: with the container constants
instantiated as `CLUSTER_SIZE = MAX_BLOB_SIZE = 4096`, the same one-byte
payload (well below `MAX_PART_CONTENT_SIZE`) encodes to a 150-byte blob
under the draw `rand1` and to a 200-byte blob under the draw `rand2`: the
blob length is neither always 4096 nor equal across payloads/draws. -/
theorem C3_counterexample :
    encodeBlob H0 ks0 4096 k0 args1 rand1 [65] 0 = .ok blob1 ∧
    encodeBlob H0 ks0 4096 k0 args1 rand2 [65] 0 = .ok blob2 ∧
    blob1.length = 150 ∧ blob2.length = 200 ∧
    blob1.length ≠ blob2.length ∧ blob1.length ≠ 4096 := by decide

/-- Witness for the amended C3 at concrete inputs. -/
theorem C3_blob_length_amended_witness :
    ∃ blob,
      encodeBlob H0 ks0 4096 k0 ⟨5, (0 : Int), (2 : Int), some (1 : Int)⟩
        rand1 [65] 0 = .ok blob ∧
      blob.length = rand1.targetSize ∧ blob.length ≤ 4096 :=
  C3_blob_length_amended H0 ks0 4096 k0 5 0 2 1 rand1 [65] 0
    (fun _ => rfl) ⟨rfl, rfl, rfl, by decide⟩ (by decide) (by decide)
    (by decide) (by decide) (by decide) (by decide) (by decide) (by decide)

/-- C5 (amended): constructing an `Encrypt` operation fails with
`ValueError` exactly when `part_idx` is outside `0..255`, `parts_len` is
outside `1..256`, a present `part_size` is outside
`0..MAX_PART_CONTENT_SIZE`, or `part_size` is omitted while
`parts_len > 1` or `part_idx ≠ 0`.  The constructor does not check
`part_idx < parts_len`. -/
theorem C5_validation_amended (MPCS : Nat) (a : EncArgs) :
    (∃ e, encryptInit MPCS a = .error e) ↔
      (¬ (0 ≤ a.part_idx ∧ a.part_idx ≤ 255) ∨
       ¬ (1 ≤ a.parts_len ∧ a.parts_len ≤ 256) ∨
       (∃ v, a.part_size = some v ∧ ¬ (0 ≤ v ∧ v ≤ (MPCS : Int))) ∨
       (a.part_size = none ∧ ¬ (a.part_idx = 0 ∧ a.parts_len = 1))) := by
  rcases hps : a.part_size with _ | v <;>
    (unfold encryptInit
     simp only [hps]
     split_ifs with h1 h2 h3 h4 h5 h6 <;> simp_all <;> omega)

/-- Counterexample to C5 as stated: `part_idx = 1`, `parts_len = 1`
(so `part_idx ≥ parts_len`), `part_size = 0`, yet the constructor accepts
the arguments instead of raising `InvalidArgument`. -/
theorem C5_counterexample :
    encryptInit 100 ⟨0, 1, 1, some 0⟩ = .ok () ∧ ¬ ((1 : Int) < 1) := by
  decide

theorem belongsM_sets (H : List Nat → List Nat) (k blob : List Nat)
    (s : DioSt) (b : Bool) (s' : DioSt)
    (h : belongsM H k blob s = (b, s')) : s'.belongsC = some b := by
  unfold belongsM at h
  cases hc : s.belongsC with
  | some b0 =>
    rw [hc] at h
    cases h
    exact hc
  | none =>
    rw [hc] at h
    cases hrd : readOrFail blob 0 imprintFullLen with
    | some imp =>
      rw [hrd] at h
      cases h
      rfl
    | none =>
      rw [hrd] at h
      cases h
      rfl

theorem belongsM_idem (H : List Nat → List Nat) (k blob : List Nat)
    (s : DioSt) (b : Bool) (s' : DioSt)
    (h : belongsM H k blob s = (b, s')) :
    belongsM H k blob s' = (b, s') := by
  have hb := belongsM_sets H k blob s b s' h
  unfold belongsM
  rw [hb]

theorem containsM_state (H : List Nat → List Nat) (k blob : List Nat)
    (s : DioSt) (c : Bool) (s' : DioSt)
    (h : containsM H k blob s = (c, s')) :
    (belongsM H k blob s' = (false, s') ∧ c = false) ∨
      (belongsM H k blob s' = (true, s') ∧ s'.containsC = some c) := by
  unfold containsM at h
  cases hbs : belongsM H k blob s with
  | mk b1 s1 =>
    rw [hbs] at h
    have hidem := belongsM_idem H k blob s b1 s1 hbs
    cases b1 with
    | false =>
      simp only [Bool.not_false, if_true] at h
      cases h
      exact Or.inl ⟨hidem, rfl⟩
    | true =>
      simp only [Bool.not_true, if_false] at h
      refine Or.inr ?_
      cases hcc : s1.containsC with
      | some c0 =>
        rw [hcc] at h
        cases h
        exact ⟨hidem, hcc⟩
      | none =>
        rw [hcc] at h
        cases hrd : readOrFail blob s1.sp imprintFullLen with
        | some imp =>
          rw [hrd] at h
          cases h
          exact ⟨by unfold belongsM; rw [show (⟨s1.belongsC, some
            (pk_matches_imprint_bytes H k imp), s1.headerC, s1.dataRead,
            s1.sp + imprintFullLen, s1.cfgNonce, s1.kp⟩ : DioSt).belongsC =
            some true from belongsM_sets H k blob s true s1 hbs], rfl⟩
        | none =>
          rw [hrd] at h
          cases h
          exact ⟨by unfold belongsM; rw [show (⟨s1.belongsC, some false,
            s1.headerC, s1.dataRead, blob.length, s1.cfgNonce, s1.kp⟩ :
            DioSt).belongsC = some true from belongsM_sets H k blob s true
            s1 hbs], rfl⟩

theorem containsM_idem (H : List Nat → List Nat) (k blob : List Nat)
    (s : DioSt) (c : Bool) (s' : DioSt)
    (h : containsM H k blob s = (c, s')) :
    containsM H k blob s' = (c, s') := by
  rcases containsM_state H k blob s c s' h with ⟨hb, rfl⟩ | ⟨hb, hc⟩
  · unfold containsM
    rw [hb]
    rfl
  · unfold containsM
    rw [hb]
    simp [hc]

theorem headerM_ok_idem (H : List Nat → List Nat)
    (ks : List Nat → List Nat → Nat → Nat) (k blob : List Nat)
    (s : DioSt) (hd : Header) (s' : DioSt)
    (h : headerM H ks k blob s = (.ok hd, s')) :
    headerM H ks k blob s' = (.ok hd, s') := by
  unfold headerM at h
  cases hbs : belongsM H k blob s with
  | mk b1 s1 =>
    rw [hbs] at h
    cases b1 with
    | false => simp at h
    | true =>
      simp only [Bool.not_true, if_false] at h
      cases hcs : containsM H k blob s1 with
      | mk c1 s2 =>
        rw [hcs] at h
        cases c1 with
        | false => simp at h
        | true =>
          simp only [Bool.not_true, if_false] at h
          rcases containsM_state H k blob s1 true s2 hcs with ⟨_, hcf⟩ | ⟨hbel2, hc2⟩
          · cases hcf
          have hb2 : s2.belongsC = some true :=
            belongsM_sets H k blob s2 true s2 hbel2
          have hcsi := containsM_idem H k blob s1 true s2 hcs
          cases hhc : s2.headerC with
          | some h0 =>
            rw [hhc] at h
            cases h
            unfold headerM
            simp [hbel2, hcsi, hhc]
          | none =>
            rw [hhc] at h
            cases hrh : readHeaderM ks k blob s2.sp with
            | ok t =>
              rcases t with ⟨h0, nonce, rr⟩
              rw [hrh] at h
              cases h
              have hbel3 : belongsM H k blob ⟨s2.belongsC, s2.containsC,
                  some hd, s2.dataRead, rr.sp, some nonce, rr.kp⟩ =
                  (true, ⟨s2.belongsC, s2.containsC, some hd, s2.dataRead,
                    rr.sp, some nonce, rr.kp⟩) := by
                unfold belongsM
                rw [show (⟨s2.belongsC, s2.containsC, some hd, s2.dataRead,
                  rr.sp, some nonce, rr.kp⟩ : DioSt).belongsC = some true
                  from hb2]
              have hcont3 : containsM H k blob ⟨s2.belongsC, s2.containsC,
                  some hd, s2.dataRead, rr.sp, some nonce, rr.kp⟩ =
                  (true, ⟨s2.belongsC, s2.containsC, some hd, s2.dataRead,
                    rr.sp, some nonce, rr.kp⟩) := by
                unfold containsM
                rw [hbel3]
                simp only [Bool.not_true, if_false]
                rw [show (⟨s2.belongsC, s2.containsC, some hd, s2.dataRead,
                  rr.sp, some nonce, rr.kp⟩ : DioSt).containsC = some true
                  from hc2]
                simp
              unfold headerM
              simp [hbel3, hcont3]
            | error t =>
              rcases t with ⟨e, rr⟩
              rw [hrh] at h
              simp at h

theorem readDataM_ok_twice (H : List Nat → List Nat)
    (ks : List Nat → List Nat → Nat → Nat) (k blob : List Nat)
    (s : DioSt) (d : List Nat) (s' : DioSt)
    (h : readDataM H ks k blob s = (.ok d, s')) :
    readDataM H ks k blob s' = (.error .runtimeError, s') := by
  unfold readDataM at h
  cases hdr : s.dataRead with
  | true => rw [hdr] at h; simp at h
  | false =>
    rw [hdr] at h
    simp only [Bool.false_eq_true, if_false] at h
    cases hh : headerM H ks k blob s with
    | mk hres s1 =>
      rw [hh] at h
      cases hres with
      | error e => simp at h
      | ok h0 =>
        simp only [] at h
        cases hr1 : readAndDecryptM (ks k (s1.cfgNonce.getD [])) blob
            ⟨s1.sp, s1.kp⟩ h0.part_size with
        | error t => rcases t with ⟨e, rr⟩; rw [hr1] at h; simp at h
        | ok t =>
          rcases t with ⟨body, rr1⟩
          rw [hr1] at h
          simp only [] at h
          cases hr2 : readAndDecryptM (ks k (s1.cfgNonce.getD [])) blob rr1 4 with
          | error t => rcases t with ⟨e, rr⟩; rw [hr2] at h; simp at h
          | ok t =>
            rcases t with ⟨bcb, rr2⟩
            rw [hr2] at h
            simp only [] at h
            by_cases hcrc : crc32 body ≠ bytes_to_uint32 bcb
            · rw [if_pos hcrc] at h
              simp at h
            · rw [if_neg hcrc] at h
              cases h
              unfold readDataM
              simp

theorem containsM_after_belongs (H : List Nat → List Nat) (k blob : List Nat)
    (s : DioSt) :
    containsM H k blob (belongsM H k blob s).2 = containsM H k blob s := by
  have he : belongsM H k blob (belongsM H k blob s).2 =
      ((belongsM H k blob s).1, (belongsM H k blob s).2) :=
    belongsM_idem H k blob s _ _ rfl
  unfold containsM
  rw [he]

/-- C7: accessing the `header` property of a decoder whose imprint A does
not verify raises `GroupImprintMismatch`; accessing it on a fake (imprint A
verifies, imprint B does not) raises `ItemImprintMismatch`.  The header is
parsed only in the branch where both imprint checks passed. -/
theorem C7_header_guards (H : List Nat → List Nat)
    (ks : List Nat → List Nat → Nat → Nat) (k blob : List Nat) :
    (belongs_to_namegroup H k blob = false →
      headerOf H ks k blob = .error .groupImprintMismatch) ∧
    (belongs_to_namegroup H k blob = true →
      contains_data H k blob = false →
      headerOf H ks k blob = .error .itemImprintMismatch) := by
  constructor
  · intro hb
    unfold belongs_to_namegroup at hb
    unfold headerOf headerM
    simp [hb]
  · intro hb hc
    unfold belongs_to_namegroup at hb
    unfold contains_data at hc
    unfold headerOf headerM
    have hca := containsM_after_belongs H k blob .start
    simp [hb, hca, hc]

set_option maxRecDepth 100000 in
/-- Witness for C7: the empty blob fails the group-imprint check, and the
concrete fake `fake1` passes it but fails the item-imprint check. -/
theorem C7_header_guards_witness :
    headerOf H0 ks0 k0 [] = .error .groupImprintMismatch ∧
    headerOf H0 ks0 k0 fake1 = .error .itemImprintMismatch :=
  ⟨(C7_header_guards H0 ks0 k0 []).1 (by decide),
   (C7_header_guards H0 ks0 k0 fake1).2 (by decide) (by decide)⟩

/-- C8: a source that ends before the 56 bytes of imprint A makes
`belongs_to_namegroup` return `False` rather than raise, and one that ends
before the 112 bytes of both imprints makes `contains_data` return
`False`. -/
theorem C8_truncated_not_matching (H : List Nat → List Nat)
    (k blob : List Nat) :
    (blob.length < 56 → belongs_to_namegroup H k blob = false) ∧
    (blob.length < 112 → contains_data H k blob = false) := by
  constructor
  · intro h
    unfold belongs_to_namegroup belongsM
    have hrd : readOrFail blob 0 imprintFullLen = none := by
      rw [readOrFail]
      simp only [imprintFullLen]
      rw [if_neg (by omega)]
    simp [DioSt.start, hrd]
  · intro h
    unfold contains_data containsM
    cases hbs : belongsM H k blob DioSt.start with
    | mk b1 s1 =>
      cases b1 with
      | false => simp
      | true =>
        simp only [Bool.not_true, if_false]
        have hsp : s1.sp = 56 ∧ s1.containsC = none := by
          unfold belongsM at hbs
          rw [show DioSt.start.belongsC = none from rfl] at hbs
          cases hrd : readOrFail blob 0 imprintFullLen with
          | some imp =>
            rw [hrd] at hbs
            simp only [] at hbs
            have hs1 := congrArg Prod.snd hbs
            simp only [] at hs1
            constructor
            · rw [← hs1]
              rfl
            · rw [← hs1]
              rfl
          | none =>
            rw [hrd] at hbs
            simp only [] at hbs
            simp [Prod.mk.injEq] at hbs
        have hrd2 : readOrFail blob s1.sp imprintFullLen = none := by
          rw [readOrFail]
          simp only [imprintFullLen, hsp.1]
          rw [if_neg (by omega)]
        rw [hsp.2, hrd2]
        simp

/-- Witness for C8: the empty blob. -/
theorem C8_truncated_not_matching_witness :
    belongs_to_namegroup H0 k0 [] = false ∧ contains_data H0 k0 [] = false :=
  ⟨(C8_truncated_not_matching H0 k0 []).1 (by decide),
   (C8_truncated_not_matching H0 k0 []).2 (by decide)⟩

/-- C9 (amended): `belongs_to_namegroup` and `contains_data` are idempotent
and cached: a repeated access returns the first result and leaves the state
unchanged.  A `header` access that succeeded is cached: repeated accesses
return the same header.  After a successful `read_data`, a second call
raises `RuntimeError`.  (A failed `header` access is not cached and has
advanced the stream, so repeating it can fail differently; see the
counterexample.) -/
theorem C9_tiers_cached_amended (H : List Nat → List Nat)
    (ks : List Nat → List Nat → Nat → Nat) (k blob : List Nat) :
    (∀ s b s', belongsM H k blob s = (b, s') →
      belongsM H k blob s' = (b, s')) ∧
    (∀ s c s', containsM H k blob s = (c, s') →
      containsM H k blob s' = (c, s')) ∧
    (∀ s hd s', headerM H ks k blob s = (.ok hd, s') →
      headerM H ks k blob s' = (.ok hd, s')) ∧
    (∀ s d s', readDataM H ks k blob s = (.ok d, s') →
      readDataM H ks k blob s' = (.error .runtimeError, s')) :=
  ⟨fun s b s' h => belongsM_idem H k blob s b s' h,
   fun s c s' h => containsM_idem H k blob s c s' h,
   fun s hd s' h => headerM_ok_idem H ks k blob s hd s' h,
   fun s d s' h => readDataM_ok_twice H ks k blob s d s' h⟩

set_option maxRecDepth 400000 in
/-- Witness for the amended C9 on the concrete valid blob `blob1`: a second
`header` access returns the same cached header, and a second `read_data`
raises `RuntimeError`. -/
theorem C9_tiers_cached_amended_witness :
    headerM H0 ks0 k0 blob1 (headerM H0 ks0 k0 blob1 .start).2 =
      (.ok ⟨1, 5, 1, 2, 0, 1⟩, (headerM H0 ks0 k0 blob1 .start).2) ∧
    readDataM H0 ks0 k0 blob1 (readDataM H0 ks0 k0 blob1 .start).2 =
      (.error .runtimeError, (readDataM H0 ks0 k0 blob1 .start).2) :=
  ⟨(C9_tiers_cached_amended H0 ks0 k0 blob1).2.2.1 .start ⟨1, 5, 1, 2, 0, 1⟩
      (headerM H0 ks0 k0 blob1 .start).2 (by decide),
   (C9_tiers_cached_amended H0 ks0 k0 blob1).2.2.2 .start [65]
      (readDataM H0 ks0 k0 blob1 .start).2 (by decide)⟩

set_option maxRecDepth 400000 in
/-- Counterexample to C9 as stated: on `badBlob` (valid imprints, corrupt
header CRC) the first `header` access raises `ChecksumMismatch`, but a
repeated access on the same decoder raises `InsufficientData` instead —
the repeated access does not return the same result as the first. -/
theorem C9_counterexample :
    (headerM H0 ks0 k0 badBlob .start).1 = .error .checksumMismatch ∧
    (headerM H0 ks0 k0 badBlob (headerM H0 ks0 k0 badBlob .start).2).1 =
      .error .insufficientData := by decide

/-- C6: `create_fake_bytes` returns exactly `CLUSTER_SIZE` bytes whose
first 56 bytes are a valid imprint for the key, so the blob passes
`belongs_to_namegroup`, fails `contains_data` (given that the random tail
does not happen to verify as an imprint), and the resolver classifies it
as a fake for this codename (and not as fresh data). -/
theorem C6_fake_blob (H : List Nat → List Nat)
    (ks : List Nat → List Nat → Nat → Nat) (CLUSTER : Nat)
    (k nonce : List Nat) (tailOracle : Nat → Nat)
    (Hlen : ∀ x, (H x).length = 32) (hn : nonce.length = 24)
    (hC : 112 ≤ CLUSTER)
    (hnm : pk_matches_imprint_bytes H k
      ((randBytes tailOracle (CLUSTER - imprintFullLen)).take 56) = false) :
    (create_fake_bytes H CLUSTER k nonce tailOracle).length = CLUSTER ∧
    belongs_to_namegroup H k (create_fake_bytes H CLUSTER k nonce tailOracle) =
      true ∧
    contains_data H k (create_fake_bytes H CLUSTER k nonce tailOracle) =
      false ∧
    ngroupRun H ks k [create_fake_bytes H CLUSTER k nonce tailOracle] =
      .ok ⟨[0], [0], [], []⟩ := by
  have hil : (imprintBytes H k nonce).length = 56 := by
    rw [imprintBytes_length H k _ Hlen, hn]
  simp only [imprintFullLen] at hnm
  have hlen : (create_fake_bytes H CLUSTER k nonce tailOracle).length =
      CLUSTER := by
    simp [create_fake_bytes, hil, randBytes_length, imprintFullLen]
    omega
  have hrd1 : readOrFail (create_fake_bytes H CLUSTER k nonce tailOracle)
      0 56 = some (imprintBytes H k nonce) := by
    rw [readOrFail, if_pos (by rw [hlen]; omega)]
    rw [List.drop_zero, create_fake_bytes, List.take_left' hil]
  have hbel : belongsM H k (create_fake_bytes H CLUSTER k nonce tailOracle)
      .start = (true, ⟨some true, none, none, false, 56, none, 0⟩) := by
    unfold belongsM DioSt.start
    simp only [imprintFullLen]
    rw [hrd1]
    simp [pk_matches_imprintBytes H k nonce hn]
  have hrd2 : readOrFail (create_fake_bytes H CLUSTER k nonce tailOracle)
      56 56 = some ((randBytes tailOracle (CLUSTER - imprintFullLen)).take 56) := by
    rw [readOrFail, if_pos (by rw [hlen]; omega)]
    rw [create_fake_bytes, List.drop_left' hil]
  simp only [imprintFullLen] at hrd2
  have hcon : containsM H k (create_fake_bytes H CLUSTER k nonce tailOracle)
      ⟨some true, none, none, false, 56, none, 0⟩ =
      (false, ⟨some true, some false, none, false, 112, none, 0⟩) := by
    unfold containsM belongsM
    simp only [imprintFullLen]
    rw [hrd2]
    simp [hnm]
  refine ⟨hlen, ?_, ?_, ?_⟩
  · unfold belongs_to_namegroup
    rw [hbel]
  · unfold contains_data containsM
    simp [hbel, hrd2, hnm, imprintFullLen]
  · have hrg : List.range 1 = [0] := rfl
    have hg0 : [create_fake_bytes H CLUSTER k nonce tailOracle][(0 : Nat)]?.getD
        [] = create_fake_bytes H CLUSTER k nonce tailOracle := rfl
    unfold ngroupRun ngItems2 ngItems1 ngCollect ngVersions sortDesc
      pickFreshVer
    simp [hrg, hg0, hbel, hcon]

set_option maxRecDepth 400000 in
/-- Witness for C6: the concrete fake `fake1` (`CLUSTER_SIZE = 300`). -/
theorem C6_fake_blob_witness :
    (create_fake_bytes H0 300 k0 nA (fun i => i + 1)).length = 300 ∧
    belongs_to_namegroup H0 k0 (create_fake_bytes H0 300 k0 nA
      (fun i => i + 1)) = true ∧
    contains_data H0 k0 (create_fake_bytes H0 300 k0 nA (fun i => i + 1)) =
      false ∧
    ngroupRun H0 ks0 k0 [create_fake_bytes H0 300 k0 nA (fun i => i + 1)] =
      .ok ⟨[0], [0], [], []⟩ :=
  C6_fake_blob H0 ks0 300 k0 nA (fun i => i + 1) (fun _ => rfl) (by decide)
    (by decide) (by decide)

theorem ngItems1_mem (H : List Nat → List Nat) (k : List Nat)
    (blobs : List (List Nat)) (x : Nat × DioSt) (hx : x ∈ ngItems1 H k blobs) :
    x.1 < blobs.length ∧
      belongsM H k (blobs.getD x.1 []) .start = (true, x.2) := by
  unfold ngItems1 at hx
  obtain ⟨i, hi, hf⟩ := List.mem_filterMap.mp hx
  simp only [] at hf
  by_cases hb : (belongsM H k (blobs.getD i []) .start).1 = true
  · rw [if_pos hb] at hf
    cases hf
    refine ⟨List.mem_range.mp hi, ?_⟩
    rw [← hb]
  · rw [if_neg hb] at hf
    cases hf

theorem headerM_start_eq (H : List Nat → List Nat)
    (ks : List Nat → List Nat → Nat → Nat) (k blob : List Nat)
    (s1 s2 : DioSt)
    (hbs : belongsM H k blob .start = (true, s1))
    (hcs : containsM H k blob s1 = (true, s2)) :
    headerM H ks k blob s2 = headerM H ks k blob .start := by
  rcases containsM_state H k blob s1 true s2 hcs with ⟨_, hh⟩ | ⟨hbel2, hc2⟩
  · cases hh
  have hcsi := containsM_idem H k blob s1 true s2 hcs
  unfold headerM
  rw [hbs, hbel2]
  simp [hcs, hcsi]

theorem ngCollect_ok (H : List Nat → List Nat)
    (ks : List Nat → List Nat → Nat → Nat) (k : List Nat)
    (blobs : List (List Nat)) (l : List (Nat × DioSt × Bool))
    (hl : ∀ x ∈ l, ∃ hd st,
      headerM H ks k (blobs.getD x.1 []) x.2.1 = (.ok hd, st)) :
    ∃ content, ngCollect H ks k blobs l = .ok content := by
  induction l with
  | nil => exact ⟨[], rfl⟩
  | cons x xs ih =>
    obtain ⟨hd, st, hx⟩ := hl x (List.mem_cons_self x xs)
    obtain ⟨rest, hr⟩ := ih (fun y hy => hl y (List.mem_cons_of_mem x hy))
    refine ⟨(x.1, hd) :: rest, ?_⟩
    unfold ngCollect
    rw [hx, hr]

/-- C4 (amended): the resolver never raises because of blobs that fail an
imprint check — those are classified foreign or fake — and
`NameGroup.__init__` succeeds whenever every blob that passes both imprint
checks has a parsable header.  (A blob passing both imprint checks whose
header fails to parse propagates the error to the caller; see the
counterexample.) -/
theorem C4_no_raise_amended (H : List Nat → List Nat)
    (ks : List Nat → List Nat → Nat → Nat) (k : List Nat)
    (blobs : List (List Nat))
    (hh : ∀ blob ∈ blobs, contains_data H k blob = true →
      ∃ hd, headerOf H ks k blob = .ok hd) :
    ∃ res, ngroupRun H ks k blobs = .ok res := by
  have hc : ∀ x ∈ (ngItems2 H k blobs).filter (fun x => x.2.2),
      ∃ hd st, headerM H ks k (blobs.getD x.1 []) x.2.1 = (.ok hd, st) := by
    intro x hx
    obtain ⟨hx2, hxc⟩ := List.mem_filter.mp hx
    unfold ngItems2 at hx2
    obtain ⟨y, hy, hmap⟩ := List.mem_map.mp hx2
    obtain ⟨hylt, hybel⟩ := ngItems1_mem H k blobs y hy
    simp only [] at hmap
    subst hmap
    simp only [] at hxc
    have hceta : containsM H k (blobs.getD y.1 []) y.2 =
        (true, (containsM H k (blobs.getD y.1 []) y.2).2) := by
      rw [← hxc]
    have hcd : contains_data H k (blobs.getD y.1 []) = true := by
      unfold contains_data
      have h1 := containsM_after_belongs H k (blobs.getD y.1 []) .start
      rw [hybel] at h1
      simp only [] at h1
      rw [← h1, hceta]
    obtain ⟨hd, hho⟩ := hh (blobs.getD y.1 [])
      (by rw [List.getD_eq_getElem _ _ hylt]; exact List.getElem_mem hylt) hcd
    have hse := headerM_start_eq H ks k (blobs.getD y.1 []) y.2
      (containsM H k (blobs.getD y.1 []) y.2).2 hybel hceta
    refine ⟨hd, (headerM H ks k (blobs.getD y.1 []) DioSt.start).2, ?_⟩
    rw [hse]
    unfold headerOf at hho
    rw [← hho]
  obtain ⟨content, hcol⟩ := ngCollect_ok H ks k blobs
    ((ngItems2 H k blobs).filter (fun x => x.2.2)) hc
  unfold ngroupRun
  simp only []
  rw [hcol]
  exact ⟨_, rfl⟩

set_option maxRecDepth 400000 in
/-- Counterexample to C4 as stated: `badBlob` passes both imprint checks
under `k0` but its header CRC is wrong; constructing the resolver over
`[badBlob]` propagates `ChecksumMismatch` instead of classifying the blob
as foreign. -/
theorem C4_counterexample :
    contains_data H0 k0 badBlob = true ∧
    ngroupRun H0 ks0 k0 [badBlob] = .error .checksumMismatch := by decide

set_option maxRecDepth 400000 in
/-- Witness for the amended C4: over the single valid blob `blob1` the
resolver succeeds. -/
theorem C4_no_raise_amended_witness :
    ∃ res, ngroupRun H0 ks0 k0 [blob1] = .ok res :=
  C4_no_raise_amended H0 ks0 k0 [blob1] (by
    intro blob hb hcd
    rw [List.mem_singleton.mp hb]
    exact ⟨⟨1, 5, 1, 2, 0, 1⟩, by decide⟩)

theorem sortDesc_sorted (l : List Int) :
    List.Sorted (fun a b : Int => b ≤ a) (sortDesc l) := by
  haveI : IsTotal Int (fun a b : Int => b ≤ a) := ⟨fun a b => le_total b a⟩
  haveI : IsTrans Int (fun a b : Int => b ≤ a) :=
    ⟨fun _ _ _ h1 h2 => le_trans h2 h1⟩
  exact List.sorted_insertionSort _ l

theorem sortDesc_mem (l : List Int) (x : Int) : x ∈ sortDesc l ↔ x ∈ l :=
  (List.perm_insertionSort _ l).mem_iff

theorem ngVersions_mem (content : List (Nat × Header)) (v : Int) :
    v ∈ ngVersions content ↔
      v ∈ content.map (fun x => x.2.data_version) := by
  unfold ngVersions
  rw [sortDesc_mem, List.mem_dedup]

theorem pickFreshVer_eq_find (content : List (Nat × Header)) (l : List Int) :
    pickFreshVer content l = l.find? (fun v => sizeMatch content v) := by
  induction l with
  | nil => rfl
  | cons v rest ih =>
    unfold pickFreshVer
    rw [List.find?_cons]
    simp only []
    cases hh : (content.filter (fun x => x.2.data_version = v)).head? with
    | none =>
      have hsm : sizeMatch content v = false := by
        unfold sizeMatch
        rw [hh]
      rw [hsm]
      simp only []
      exact ih
    | some first =>
      by_cases hc : first.2.parts_len =
          (content.filter (fun x => x.2.data_version = v)).length
      · have hsm : sizeMatch content v = true := by
          unfold sizeMatch
          rw [hh]
          simp [hc]
        rw [hsm]
        simp only []
        rw [if_pos hc]
      · have hsm : sizeMatch content v = false := by
          unfold sizeMatch
          rw [hh]
          simp [hc]
        rw [hsm]
        simp only []
        rw [if_neg hc]
        exact ih

theorem find?_sorted_some_max (l : List Int) (p : Int → Bool) (v : Int)
    (hs : List.Sorted (fun a b : Int => b ≤ a) l)
    (h : l.find? p = some v) :
    p v = true ∧ v ∈ l ∧ ∀ w ∈ l, p w = true → w ≤ v := by
  induction l with
  | nil => cases h
  | cons x xs ih =>
    rw [List.find?_cons] at h
    cases hp : p x with
    | true =>
      rw [hp] at h
      cases h
      refine ⟨hp, List.mem_cons_self _ _, ?_⟩
      intro w hw _
      rcases List.mem_cons.mp hw with rfl | hw2
      · exact le_refl _
      · exact (List.sorted_cons.mp hs).1 w hw2
    | false =>
      rw [hp] at h
      obtain ⟨h1, h2, h3⟩ := ih (List.sorted_cons.mp hs).2 h
      refine ⟨h1, List.mem_cons_of_mem x h2, ?_⟩
      intro w hw hwp
      rcases List.mem_cons.mp hw with rfl | hw2
      · rw [hp] at hwp
        cases hwp
      · exact h3 w hw2 hwp

theorem ngroupRun_ok_parts (H : List Nat → List Nat)
    (ks : List Nat → List Nat → Nat → Nat) (k : List Nat)
    (blobs : List (List Nat)) (res : NgResult)
    (h : ngroupRun H ks k blobs = .ok res) :
    res.freshIdxs =
      (match pickFreshVer res.contentItems (ngVersions res.contentItems) with
       | some v => (res.contentItems.filter
          (fun x => x.2.data_version = v)).map (·.1)
       | none => []) := by
  unfold ngroupRun at h
  simp only [] at h
  cases hcol : ngCollect H ks k blobs
      ((ngItems2 H k blobs).filter (fun x => x.2.2)) with
  | error e => rw [hcol] at h; cases h
  | ok content =>
    rw [hcol] at h
    simp only [] at h
    cases h
    rfl

/-- C2 (amended): on a successful resolver run, the fresh marking is
governed by group size alone: if the version-selection loop picks `v`, then
`v` is a `data_version` of the content blobs whose group passes the
size test (`parts_len` of the group's first blob equals the group size —
`part_idx` values are never examined), `v` is the largest such version
(higher incomplete versions are skipped), and the fresh set is exactly
`v`'s group; if no version passes the size test, the fresh set is empty. -/
theorem C2_fresh_selection_amended (H : List Nat → List Nat)
    (ks : List Nat → List Nat → Nat → Nat) (k : List Nat)
    (blobs : List (List Nat)) (res : NgResult)
    (hok : ngroupRun H ks k blobs = .ok res) :
    (∀ v, pickFreshVer res.contentItems (ngVersions res.contentItems) =
        some v →
      sizeMatch res.contentItems v = true ∧
      v ∈ res.contentItems.map (fun x => x.2.data_version) ∧
      (∀ w ∈ res.contentItems.map (fun x => x.2.data_version),
        sizeMatch res.contentItems w = true → w ≤ v) ∧
      res.freshIdxs = (res.contentItems.filter
        (fun x => x.2.data_version = v)).map (·.1)) ∧
    (pickFreshVer res.contentItems (ngVersions res.contentItems) = none →
      (∀ w ∈ res.contentItems.map (fun x => x.2.data_version),
        sizeMatch res.contentItems w = false) ∧
      res.freshIdxs = []) := by
  have hfr := ngroupRun_ok_parts H ks k blobs res hok
  constructor
  · intro v hv
    rw [pickFreshVer_eq_find] at hv
    obtain ⟨h1, h2, h3⟩ := find?_sorted_some_max
      (ngVersions res.contentItems) (fun v => sizeMatch res.contentItems v)
      v (sortDesc_sorted _) hv
    refine ⟨h1, (ngVersions_mem res.contentItems v).mp h2, ?_, ?_⟩
    · intro w hw hwp
      exact h3 w ((ngVersions_mem res.contentItems w).mpr hw) hwp
    · rw [hfr, pickFreshVer_eq_find, hv]
  · intro hv
    rw [pickFreshVer_eq_find] at hv
    constructor
    · intro w hw
      have := List.find?_eq_none.mp hv w
        ((ngVersions_mem res.contentItems w).mpr hw)
      simpa using this
    · rw [hfr, pickFreshVer_eq_find, hv]

set_option maxRecDepth 1000000 in
/-- Counterexample to C2 as stated: two identical content blobs both carry
`data_version 5`, `parts_len 2`, `part_idx 0`.  Their `part_idx` values
form `{0}`, not `{0, 1}`, so by the claim the fresh set must be empty —
but the resolver, which compares only the group size against `parts_len`,
marks both blobs fresh. -/
theorem C2_counterexample :
    (ngroupRun H0 ks0 k0 [blob1, blob1]).map NgResult.freshIdxs =
      .ok [0, 1] ∧
    claimFresh H0 ks0 k0 [blob1, blob1] = [] := by decide

set_option maxRecDepth 1000000 in
/-- Witness for the amended C2 at the concrete run over `[blob1, blob1]`. -/
theorem C2_fresh_selection_amended_witness :
    sizeMatch [(0, ⟨1, 5, 1, 2, 0, 1⟩), (1, ⟨1, 5, 1, 2, 0, 1⟩)] 5 = true ∧
    (5 : Int) ∈ ([(0, ⟨1, 5, 1, 2, 0, 1⟩), (1, ⟨1, 5, 1, 2, 0, 1⟩)] :
      List (Nat × Header)).map (fun x => x.2.data_version) ∧
    (∀ w ∈ ([(0, ⟨1, 5, 1, 2, 0, 1⟩), (1, ⟨1, 5, 1, 2, 0, 1⟩)] :
        List (Nat × Header)).map (fun x => x.2.data_version),
      sizeMatch [(0, ⟨1, 5, 1, 2, 0, 1⟩), (1, ⟨1, 5, 1, 2, 0, 1⟩)] w = true →
        w ≤ 5) ∧
    (⟨[0, 1], [], [(0, ⟨1, 5, 1, 2, 0, 1⟩), (1, ⟨1, 5, 1, 2, 0, 1⟩)],
      [0, 1]⟩ : NgResult).freshIdxs =
      (([(0, ⟨1, 5, 1, 2, 0, 1⟩), (1, ⟨1, 5, 1, 2, 0, 1⟩)] :
        List (Nat × Header)).filter
          (fun x => x.2.data_version = 5)).map (·.1) :=
  (C2_fresh_selection_amended H0 ks0 k0 [blob1, blob1]
    ⟨[0, 1], [], [(0, ⟨1, 5, 1, 2, 0, 1⟩), (1, ⟨1, 5, 1, 2, 0, 1⟩)], [0, 1]⟩
    (by decide)).1 5 (by decide)

end Ksf
